import Mathlib

/-!
The row-persistence path of the redsql storage engine.

A shallow embedding of `src/util.cc`, `src/redis.cc` and
`ha_redis::write_row` of `src/ha_redis.cc`.

* C strings are lists of characters (the bytes before the terminating NUL).
* `uchar` buffers are lists of natural numbers (one per byte).
* `llong` values are integers.
-/

namespace RedSQL

/-! ## util.cc -/

/-- The two characters that stop the backward scan of `extract_table_name`:
`*ptr != '\\' && *ptr != '/'` is false exactly on them. -/
def isSep (c : Char) : Bool := c == '\\' || c == '/'

/-- The loop `while (ptr >= name && *ptr != '\\' && *ptr != '/') ptr--;`.
The argument is `ptr - name + 1` (so `0` stands for `ptr = name - 1`, where
`ptr >= name` fails), the result is `ptr - name + 1` when the loop ends,
which is `name_ptr - name`. -/
def scanBack (name : List Char) : Nat → Nat
  | 0 => 0
  | k + 1 =>
    match name.get? k with
    | some c => if c != '\\' && c != '/' then scanBack name k else k + 1
    | none => k + 1

/-- The function `extract_table_name(table_name, name)`: the scan starts
at `strend(name) - 1`, the last character, and `memcpy` copies
`strend(name) - (int)name_ptr + 1` bytes from `name_ptr`, which is the
distance from `name_ptr` to the terminating NUL at `strend(name)`, NUL
included; the C string left in `table_name` is `name` without its first
`name_ptr - name` characters. -/
def extract_table_name (name : List Char) : List Char :=
  name.drop (scanBack name name.length)

/-! ## redis.h -/

/-- The macro `REDIS_ERR`. -/
def REDIS_ERR : Int := -1

/-- The macro `REDIS_OK`. -/
def REDIS_OK : Int := 0

/-! ## The store behind the connection handle `c`

hiredis and the Redis server are outside the repository. They are modelled
by the three commands the adapter sends and the reply each one gets. -/

/-- A store key, the text that `%s` puts into the command. -/
abbrev Key := List Char

/-- The commands `redisCommand` is called with in `redis.cc`. -/
inductive Cmd where
  | SET (key : Key) (val : List Nat)
  | RPUSH (key : Key) (val : List Char)
  | INCR (key : Key)
  deriving DecidableEq, Repr

/-- What a key of the store holds: a byte string (written by `SET`), an
ordered list (appended to by `RPUSH`) or an integer counter (stepped by
`INCR`). -/
inductive Entry where
  | bytes (v : List Nat)
  | list (items : List (List Char))
  | counter (n : Int)
  deriving DecidableEq, Repr

/-- The `type` field of a `redisReply` (`REDIS_REPLY_*`). -/
inductive ReplyType where
  | STRING | ARRAY | INTEGER | NIL | STATUS | ERROR
  deriving DecidableEq, Repr

/-- The fields of `redisReply` that `redis.cc` reads for its control flow
and results: `reply->type` and `reply->integer`. -/
structure redisReply where
  type : ReplyType
  integer : Int
  deriving DecidableEq, Repr

/-- The contents of the store: what each key holds, if anything. -/
abbrev Store := Key → Option Entry

/-- The store with `k` set to `e`. -/
def Store.set (s : Store) (k : Key) (e : Entry) : Store :=
  fun k' => if k' = k then some e else s k'

/-- The largest `long long`, the bound of the store's counters. -/
def LLONG_MAX : Int := 9223372036854775807

/-- The store's own execution of one command, with the reply it sends.
`SET` overwrites whatever the key holds. `RPUSH` creates the list on an
absent key, appends to a list and replies the new length; on another kind
of entry it replies an error. `INCR` creates the counter with value 1 on an
absent key (increment-on-absent), steps a counter and replies the new
value; on another kind of entry, or when the step would overflow, it
replies an error. An error reply leaves the store as it was. -/
def serve (s : Store) : Cmd → Store × redisReply
  | .SET k v => (s.set k (.bytes v), ⟨.STATUS, 0⟩)
  | .RPUSH k v =>
    match s k with
    | none => (s.set k (.list [v]), ⟨.INTEGER, 1⟩)
    | some (.list l) => (s.set k (.list (l ++ [v])), ⟨.INTEGER, (l.length : Int) + 1⟩)
    | some _ => (s, ⟨.ERROR, 0⟩)
  | .INCR k =>
    match s k with
    | none => (s.set k (.counter 1), ⟨.INTEGER, 1⟩)
    | some (.counter n) =>
      if n < LLONG_MAX then (s.set k (.counter (n + 1)), ⟨.INTEGER, n + 1⟩)
      else (s, ⟨.ERROR, 0⟩)
    | some _ => (s, ⟨.ERROR, 0⟩)

/-- Everything `redis.cc` acts on through the global handle `c`:
the store, a script of injected failures (one flag per forthcoming
command; `true` makes the store answer that command with an error reply
without executing it, as it does when it is loading, read-only or out of
memory), the commands sent so far in order, and the number of
`redis_connect` calls so far. -/
structure World where
  store : Store
  faults : List Bool
  sent : List Cmd
  connects : Nat

/-- The call `redisCommand(c, ...)`: sends the command and returns the reply. Only
calls that return a reply object are modelled (a lost connection, where
hiredis returns a null reply, is not). -/
def redisCommand (w : World) (cmd : Cmd) : World × redisReply :=
  if w.faults.headD false then
    ({ w with faults := w.faults.tail, sent := w.sent ++ [cmd] }, ⟨.ERROR, 0⟩)
  else
    ({ w with store := (serve w.store cmd).1, faults := w.faults.tail,
              sent := w.sent ++ [cmd] }, (serve w.store cmd).2)

/-- The value a function declared `int` hands to its caller when control
reaches its closing brace without a `return`: `check_error`, `redis_set`,
`redis_rpush` and `redis_write_field` all end so on their non-error path.
The source fixes none of these values, so each is a parameter; `heap` is
the value of a byte of `my_malloc` memory that was never written. -/
structure Indeterminate where
  check_error : Int
  redis_set : Int
  redis_rpush : Int
  redis_write_field : Int
  heap : Nat

/-! ## redis.cc -/

/-- The function `redis_connect()`: opens the connection again. The connection attempt
is taken to succeed (the store just replied), so the result is
`REDIS_OK`. -/
def redis_connect (w : World) : World × Int :=
  ({ w with connects := w.connects + 1 }, REDIS_OK)

/-- The function `check_error(reply)`: on an error reply, reconnect and return
`REDIS_ERR`; otherwise control falls off the end of the function. -/
def check_error (u : Indeterminate) (reply : redisReply) (w : World) : World × Int :=
  if reply.type = ReplyType.ERROR then
    ((redis_connect w).1, REDIS_ERR)
  else
    (w, u.check_error)

/-- The function `redis_set(key, val, vallen)`: `SET %s %b` with the first `vallen`
bytes at `val`. -/
def redis_set (u : Indeterminate) (key : Key) (val : List Nat) (vallen : Nat)
    (w : World) : World × Int :=
  let r := redisCommand w (.SET key (val.take vallen))
  let e := check_error u r.2 r.1
  if e.2 = REDIS_ERR then (e.1, REDIS_ERR) else (e.1, u.redis_set)

/-- The function `redis_rpush(key, val, vallen)`: `RPUSH %s %b` with the first `vallen`
characters at `val`. -/
def redis_rpush (u : Indeterminate) (key : Key) (val : List Char) (vallen : Nat)
    (w : World) : World × Int :=
  let r := redisCommand w (.RPUSH key (val.take vallen))
  let e := check_error u r.2 r.1
  if e.2 = REDIS_ERR then (e.1, REDIS_ERR) else (e.1, u.redis_rpush)

/-- The function `redis_incr(key)`: `INCR %s`; the result is `reply->integer` unless
`check_error` returned `REDIS_ERR`. -/
def redis_incr (u : Indeterminate) (key : Key) (w : World) : World × Int :=
  let r := redisCommand w (.INCR key)
  let e := check_error u r.2 r.1
  if e.2 = REDIS_ERR then (e.1, REDIS_ERR) else (e.1, r.2.integer)

/-- The function `lltoa(str, num)`: `sprintf(str, "%lld", num)`, the
signed decimal text of `num`. -/
def lltoa (num : Int) : List Char :=
  if num < 0 then '-' :: Nat.toDigits 10 num.natAbs else Nat.toDigits 10 num.natAbs

/-- The key `sprintf(key, "%s:lastrid", tablename)` of `redis_write_row`. -/
def lastrid_key (tablename : List Char) : Key := tablename ++ ":lastrid".toList

/-- The key `sprintf(key, "%s:rid", tablename)` of `redis_write_row`. -/
def rid_key (tablename : List Char) : Key := tablename ++ ":rid".toList

/-- The function `redis_write_row(tablename)`: increment the counter,
push the decimal text of the result (`strlen(ridstr)` characters of it) on
the list, return the result of the increment. The result of `redis_rpush` is stored in
`resp` and not used. -/
def redis_write_row (u : Indeterminate) (tablename : List Char) (w : World) : World × Int :=
  let i := redis_incr u (lastrid_key tablename) w
  let rid := i.2
  let ridstr := lltoa rid
  let p := redis_rpush u (rid_key tablename) ridstr ridstr.length i.1
  (p.1, rid)

/-- The key `sprintf(key, "%s:%s:%s", tablename, ridstr, fieldname)` of
`redis_write_field`, with `ridstr` written by `lltoa(ridstr, rid)`. -/
def field_key (tablename : List Char) (rid : Int) (fieldname : List Char) : Key :=
  tablename ++ ':' :: (lltoa rid ++ ':' :: fieldname)

/-- The size `keylen = strlen(tablename) + 8` of the buffer that
`redis_write_row` allocates for the key `tablename:lastrid`. The embedding
takes each key as `sprintf` formats it; the sizes of the buffers are kept
apart in these three definitions. -/
def redis_write_row_keylen_lastrid (tablename : List Char) : Nat :=
  tablename.length + 8

/-- The size `keylen = strlen(tablename) + 4` of the buffer that
`redis_write_row` allocates for the key `tablename:rid`. -/
def redis_write_row_keylen_rid (tablename : List Char) : Nat :=
  tablename.length + 4

/-- The size `keylen = strlen(tablename) + strlen(fieldname) +
strlen(ridstr) + 2` of the buffer that `redis_write_field` allocates for
the field key. -/
def redis_write_field_keylen (tablename : List Char) (rid : Int)
    (fieldname : List Char) : Nat :=
  tablename.length + fieldname.length + (lltoa rid).length + 2

/-- The function
`redis_write_field(tablename, rid, fieldname, val, vallen)`: one
`redis_set` on the field key. The result of `redis_set` is stored in `resp`
and the function ends without a `return`. -/
def redis_write_field (u : Indeterminate) (tablename : List Char) (rid : Int)
    (fieldname : List Char) (val : List Nat) (vallen : Nat) (w : World) : World × Int :=
  let s := redis_set u (field_key tablename rid fieldname) val vallen w
  (s.1, u.redis_write_field)

/-! ## ha_redis.cc -/

/-- The host's `enum_field_types` (the `MYSQL_TYPE_*` type tags); the
`switch` of `write_row` names three of them. -/
inductive enum_field_types where
  | MYSQL_TYPE_DECIMAL | MYSQL_TYPE_TINY | MYSQL_TYPE_SHORT | MYSQL_TYPE_LONG
  | MYSQL_TYPE_FLOAT | MYSQL_TYPE_DOUBLE | MYSQL_TYPE_NULL | MYSQL_TYPE_TIMESTAMP
  | MYSQL_TYPE_LONGLONG | MYSQL_TYPE_INT24 | MYSQL_TYPE_DATE | MYSQL_TYPE_TIME
  | MYSQL_TYPE_DATETIME | MYSQL_TYPE_YEAR | MYSQL_TYPE_NEWDATE | MYSQL_TYPE_VARCHAR
  | MYSQL_TYPE_BIT | MYSQL_TYPE_NEWDECIMAL | MYSQL_TYPE_ENUM | MYSQL_TYPE_SET
  | MYSQL_TYPE_TINY_BLOB | MYSQL_TYPE_MEDIUM_BLOB | MYSQL_TYPE_LONG_BLOB
  | MYSQL_TYPE_BLOB | MYSQL_TYPE_VAR_STRING | MYSQL_TYPE_STRING | MYSQL_TYPE_GEOMETRY
  deriving DecidableEq, Repr

/-- What `write_row` reads of one `Field` of the table: `field_name`,
`pack_length()`, `offset(record)` and `type()`. -/
structure Field where
  field_name : List Char
  pack_length : Nat
  offset : Nat
  type : enum_field_types
  deriving DecidableEq, Repr

/-- The three `case` labels of the `switch` in `write_row`. -/
def is_string_type : enum_field_types → Bool
  | .MYSQL_TYPE_VARCHAR => true
  | .MYSQL_TYPE_VAR_STRING => true
  | .MYSQL_TYPE_STRING => true
  | _ => false

/-- A memory access outside the object it is made through. -/
inductive Fault where
  | read_outside_record
  | write_outside_value
  deriving DecidableEq, Repr

/-- A `uchar *` as the loop of `write_row` uses it: the null pointer, or
`record + idx`. -/
inductive Ptr where
  | null
  | byte (idx : Nat)
  deriving DecidableEq, Repr

/-- The loop
`for (uchar *ptr = orig_value; ptr != '\0'; ptr++) { value[i++] = *ptr; }`.
The condition compares the pointer itself with the null pointer constant
`'\0'`. `room` is `length - i`, what is left of the `length` bytes
allocated for `value`; the last argument is `value[0..i)`. An iteration
reads `*ptr` from the row buffer and writes `value[i]`; either access
outside its buffer is a fault. -/
def copy_loop (record : List Nat) : Nat → Ptr → List Nat → Except Fault (List Nat)
  | _, .null, value => .ok value
  | 0, .byte idx, _ =>
    match record.get? idx with
    | none => .error .read_outside_record
    | some _ => .error .write_outside_value
  | room + 1, .byte idx, value =>
    match record.get? idx with
    | none => .error .read_outside_record
    | some b => copy_loop record room (.byte (idx + 1)) (value ++ [b])

/-- The body of the `for` loop over the fields up to the `switch`'s end:
the contents of the `length` bytes of `value` that are passed to
`redis_write_field`. `orig_value` is `record + offset + 1`. The string
types run the loop above (bytes of `value` it did not write keep what
`my_malloc` left there); every other type is
`memcpy(value, orig_value, length)`. -/
def field_value (u : Indeterminate) (record : List Nat) (f : Field) :
    Except Fault (List Nat) :=
  let length := f.pack_length
  let orig_value := f.offset + 1
  if is_string_type f.type then
    match copy_loop record length (.byte orig_value) [] with
    | .error e => .error e
    | .ok value => .ok (value ++ List.replicate (length - value.length) u.heap)
  else if orig_value + length ≤ record.length then
    .ok ((record.drop orig_value).take length)
  else
    .error .read_outside_record

/-- The `for` loop of `write_row` over `table->field`: for each field, in
order, build `value` and call
`redis_write_field(tablename, rid, fieldname, value, length)`, whose
result is not used. -/
def write_fields (u : Indeterminate) (tablename : List Char) (rid : Int)
    (record : List Nat) : List Field → World → Except Fault World
  | [], w => .ok w
  | f :: fs, w =>
    match field_value u record f with
    | .error e => .error e
    | .ok value =>
      write_fields u tablename rid record fs
        (redis_write_field u tablename rid f.field_name value f.pack_length w).1

/-- The method `ha_redis::write_row(record)` for a handler whose share has the path
`table_name` and whose table has the fields `fields`; `record` holds the
bytes of the row buffer (after the host's timestamp and auto-increment
updates, which act on the buffer before anything is sent). The result of
`redis_write_row` is not tested, and the function ends with
`DBUG_RETURN(0)`. -/
def write_row (u : Indeterminate) (table_name : List Char) (fields : List Field)
    (record : List Nat) (w : World) : Except Fault (World × Int) :=
  let tablename := extract_table_name table_name
  let r := redis_write_row u tablename w
  match write_fields u tablename r.2 record fields r.1 with
  | .error e => .error e
  | .ok w' => .ok (w', 0)

/-! ## Sequences of row writes -/

/-- The outcome of `k` calls of `redis_write_row(tablename)` made one after
the other: the world after the last call and the values the calls
returned, in call order. -/
def write_rows (u : Indeterminate) (tablename : List Char) : Nat → World → World × List Int
  | 0, w => (w, [])
  | k + 1, w =>
    ((write_rows u tablename k (redis_write_row u tablename w).1).1,
      (redis_write_row u tablename w).2 ::
        (write_rows u tablename k (redis_write_row u tablename w).1).2)

/-- No failure is injected: the store executes every forthcoming command. -/
def NoFaults (w : World) : Prop := ∀ b ∈ w.faults, b = false

/-- The elements of the list at `k`, first to last; an absent key is the
empty list. -/
def list_at (s : Store) (k : Key) : List (List Char) :=
  match s k with
  | some (.list l) => l
  | _ => []

/-! ## Sequences of handler calls -/

/-- The host's error code `HA_ERR_WRONG_COMMAND`; its value is fixed by
the host's `my_base.h`, which is not part of the repository. -/
def HA_ERR_WRONG_COMMAND : Int := 131

/-- The method `ha_redis::update_row(old_data, new_data)`:
`DBUG_RETURN(HA_ERR_WRONG_COMMAND)` and nothing else. -/
def update_row (_old_data _new_data : List Nat) (w : World) : World × Int :=
  (w, HA_ERR_WRONG_COMMAND)

/-- The method `ha_redis::delete_row(buf)`:
`DBUG_RETURN(HA_ERR_WRONG_COMMAND)` and nothing else. -/
def delete_row (_buf : List Nat) (w : World) : World × Int :=
  (w, HA_ERR_WRONG_COMMAND)

/-- The method `ha_redis::delete_all_rows()`:
`DBUG_RETURN(HA_ERR_WRONG_COMMAND)` and nothing else. -/
def delete_all_rows (w : World) : World × Int :=
  (w, HA_ERR_WRONG_COMMAND)

/-- One call of the host into the handler of a table, with its
arguments. -/
inductive Op where
  | write_row (record : List Nat)
  | update_row (old_data new_data : List Nat)
  | delete_row (buf : List Nat)
  | delete_all_rows
  deriving DecidableEq, Repr

/-- What a handler object `ha_redis` holds of its table: the path
`share->table_name` and the fields `table->field`. -/
structure ha_redis where
  table_name : List Char
  fields : List Field
  deriving DecidableEq, Repr

/-- The handler `h` executing one call. -/
def run_op (u : Indeterminate) (h : ha_redis) : Op → World → Except Fault (World × Int)
  | .write_row record, w => write_row u h.table_name h.fields record w
  | .update_row old_data new_data, w => .ok (update_row old_data new_data w)
  | .delete_row buf, w => .ok (delete_row buf w)
  | .delete_all_rows, w => .ok (delete_all_rows w)

/-- A sequence of calls, each made on the handler of some table, executed
one after the other; the result is the world after the last call. -/
def run_calls (u : Indeterminate) : List (ha_redis × Op) → World → Except Fault World
  | [], w => .ok w
  | (h, op) :: calls, w =>
    match run_op u h op w with
    | .error e => .error e
    | .ok r => run_calls u calls r.1

/-- A field key of row id `REDIS_ERR` for a table whose name holds no
`:`; these are the keys under which `write_row` stores the fields of a row
whose `redis_incr` yielded `REDIS_ERR`. -/
def failed_row_key (k : Key) : Prop :=
  ∃ (t f : List Char), ':' ∉ t ∧ k = field_key t REDIS_ERR f

/-- The keys of the `SET` commands of a log, in the order they were
sent. -/
def set_keys : List Cmd → List Key
  | [] => []
  | .SET k _ :: cs => k :: set_keys cs
  | .RPUSH _ _ :: cs => set_keys cs
  | .INCR _ :: cs => set_keys cs

/-- The bytes that `write_row` copies for the non-string fields of
`fields` lie inside the row buffer `record`. -/
def record_fits (fields : List Field) (record : List Nat) : Bool :=
  fields.all (fun f => decide (f.offset + 1 + f.pack_length ≤ record.length))

/-- The row buffer of a `write_row` call fits the fields (the other calls
read no buffer). -/
def op_fits (fields : List Field) : Op → Bool
  | .write_row record => record_fits fields record
  | _ => true

/-! ## Table name resolution -/

theorem scanBack_continue_iff (c : Char) : (c != '\\' && c != '/') = !isSep c := by
  simp [isSep, bne, Bool.not_or]

theorem scanBack_skip (pre suf : List Char) (h : ∀ d ∈ suf, isSep d = false) :
    ∀ j, j ≤ suf.length →
      scanBack (pre ++ suf) (pre.length + j) = scanBack (pre ++ suf) pre.length := by
  intro j
  induction j with
  | zero => intro _; rfl
  | succ j ih =>
    intro hj
    have hlt : j < suf.length := hj
    have hget : (pre ++ suf).get? (pre.length + j) = some (suf.get ⟨j, hlt⟩) := by
      simp [List.getElem?_append_right, List.getElem?_eq_getElem hlt]
    have hns : isSep (suf.get ⟨j, hlt⟩) = false := h _ (List.get_mem _ _ _)
    show scanBack (pre ++ suf) (pre.length + j + 1) = _
    rw [scanBack, hget]
    simp only [scanBack_continue_iff, hns]
    simpa using ih (Nat.le_of_lt hlt)

theorem scanBack_stop (pre : List Char) (c : Char) (suf : List Char) (hc : isSep c = true) :
    scanBack (pre ++ c :: suf) (pre.length + 1) = pre.length + 1 := by
  have hget : (pre ++ c :: suf).get? pre.length = some c := by
    rw [List.get?_eq_getElem?, List.getElem?_append_right (Nat.le_refl _)]
    simp
  rw [scanBack, hget]
  simp [scanBack_continue_iff, hc]

theorem extract_no_sep (p : List Char) (h : ∀ d ∈ p, isSep d = false) :
    extract_table_name p = p := by
  have := scanBack_skip [] p h p.length (Nat.le_refl _)
  simp only [List.nil_append, List.length_nil, Nat.zero_add] at this
  rw [extract_table_name, this]
  rfl

theorem extract_after_sep (pre : List Char) (c : Char) (suf : List Char)
    (hc : isSep c = true) (h : ∀ d ∈ suf, isSep d = false) :
    extract_table_name (pre ++ c :: suf) = suf := by
  have h1 := scanBack_skip (pre ++ [c]) suf h suf.length (Nat.le_refl _)
  have h2 := scanBack_stop pre c suf hc
  simp only [List.append_assoc, List.singleton_append, List.length_append,
    List.length_singleton] at h1
  have hlen : (pre ++ c :: suf).length = pre.length + 1 + suf.length := by
    simp; omega
  rw [extract_table_name, hlen, h1, h2]
  have : pre ++ c :: suf = (pre ++ [c]) ++ suf := by simp
  rw [this]
  exact List.drop_left' (by simp)

theorem split_last_sep (p : List Char) :
    (∀ d ∈ p, isSep d = false) ∨
      ∃ pre c suf, isSep c = true ∧ (∀ d ∈ suf, isSep d = false) ∧ p = pre ++ c :: suf := by
  induction p with
  | nil => left; simp
  | cons x xs ih =>
    rcases ih with h | ⟨pre, c, suf, hc, hs, rfl⟩
    · by_cases hx : isSep x = true
      · right; exact ⟨[], x, xs, hx, h, rfl⟩
      · left
        intro d hd
        rcases List.mem_cons.mp hd with rfl | hd
        · simpa using hx
        · exact h d hd
    · right; exact ⟨x :: pre, c, suf, hc, hs, rfl⟩

/-- C1: `extract_table_name` returns the part of the path after its last
`/` or `\`, unchanged (a path without either is returned whole); the result
holds no separator, and `/var/lib/store/mydb/mytable.ext` gives
`mytable.ext`. -/
theorem extract_table_name_spec (p : List Char) :
    (∀ pre c suf, isSep c = true → (∀ d ∈ suf, isSep d = false) → p = pre ++ c :: suf →
        extract_table_name p = suf) ∧
    ((∀ d ∈ p, isSep d = false) → extract_table_name p = p) ∧
    (∀ d ∈ extract_table_name p, d ≠ '/' ∧ d ≠ '\\') ∧
    extract_table_name "/var/lib/store/mydb/mytable.ext".toList = "mytable.ext".toList := by
  have key : ∀ d ∈ extract_table_name p, isSep d = false := by
    rcases split_last_sep p with h | ⟨pre, c, suf, hc, hs, rfl⟩
    · rw [extract_no_sep p h]; exact h
    · rw [extract_after_sep pre c suf hc hs]; exact hs
  refine ⟨?_, extract_no_sep p, ?_, by decide⟩
  · rintro pre c suf hc hs rfl
    exact extract_after_sep pre c suf hc hs
  · intro d hd
    have := key d hd
    constructor <;> rintro rfl <;> simp [isSep] at this

/-! ## Decimal text -/

theorem digitChar_toNat (d : Nat) (h : d < 10) : (Nat.digitChar d).toNat - 48 = d := by
  interval_cases d <;> rfl

theorem digitChar_ne_marks (d : Nat) (h : d < 10) :
    Nat.digitChar d ≠ ':' ∧ Nat.digitChar d ≠ '-' := by
  interval_cases d <;> decide

theorem toDigitsCore_eq_digits (fuel : Nat) :
    ∀ (n : Nat) (acc : List Char), n < fuel → 0 < n →
      Nat.toDigitsCore 10 fuel n acc
        = ((Nat.digits 10 n).reverse.map Nat.digitChar) ++ acc := by
  induction fuel with
  | zero => intro n acc h; omega
  | succ fuel ih =>
    intro n acc h hn
    simp only [Nat.toDigitsCore]
    by_cases hq : n / 10 = 0
    · have hlt : n < 10 := by omega
      have hmod : n % 10 = n := Nat.mod_eq_of_lt hlt
      rw [if_pos hq, Nat.digits_of_lt 10 n (by omega) hlt, hmod]
      rfl
    · rw [if_neg hq, ih (n / 10) _ (by omega) (by omega),
        Nat.digits_def' (by decide : 1 < 10) hn]
      simp

theorem toDigits_pos (n : Nat) (hn : 0 < n) :
    Nat.toDigits 10 n = (Nat.digits 10 n).reverse.map Nat.digitChar := by
  rw [Nat.toDigits, toDigitsCore_eq_digits (n + 1) n [] (by omega) hn]
  simp

theorem toDigits_digit (n : Nat) :
    ∀ c ∈ Nat.toDigits 10 n, ∃ d, d < 10 ∧ c = Nat.digitChar d := by
  intro c hc
  rcases Nat.eq_zero_or_pos n with rfl | hn
  · have : Nat.toDigits 10 0 = ['0'] := rfl
    rw [this] at hc
    exact ⟨0, by decide, by simpa using hc⟩
  · rw [toDigits_pos n hn] at hc
    obtain ⟨d, hd, rfl⟩ := List.mem_map.mp hc
    exact ⟨d, Nat.digits_lt_base (by decide) (List.mem_reverse.mp hd), rfl⟩

theorem toDigits_value (n : Nat) :
    Nat.ofDigits 10 (((Nat.toDigits 10 n).map (fun c => c.toNat - 48)).reverse) = n := by
  rcases Nat.eq_zero_or_pos n with rfl | hn
  · rfl
  · rw [toDigits_pos n hn, List.map_map]
    have : List.map ((fun c : Char => c.toNat - 48) ∘ Nat.digitChar) (Nat.digits 10 n).reverse
        = (Nat.digits 10 n).reverse := by
      conv_rhs => rw [← List.map_id (Nat.digits 10 n).reverse]
      apply List.map_congr_left
      intro d hd
      exact digitChar_toNat d (Nat.digits_lt_base (by decide) (List.mem_reverse.mp hd))
    rw [this, List.reverse_reverse, Nat.ofDigits_digits]

theorem toDigits_injective (m n : Nat) (h : Nat.toDigits 10 m = Nat.toDigits 10 n) : m = n := by
  rw [← toDigits_value m, ← toDigits_value n, h]

theorem lltoa_no_colon (r : Int) : ':' ∉ lltoa r := by
  intro h
  have hd : ':' ∉ Nat.toDigits 10 r.natAbs := by
    intro h'
    obtain ⟨d, hd, he⟩ := toDigits_digit _ _ h'
    exact (digitChar_ne_marks d hd).1 he.symm
  unfold lltoa at h
  split at h
  · rcases List.mem_cons.mp h with h | h
    · exact absurd h (by decide)
    · exact hd h
  · exact hd h

theorem lltoa_injective (a b : Int) (h : lltoa a = lltoa b) : a = b := by
  have hminus : ∀ n : Nat, ∀ l, Nat.toDigits 10 n ≠ '-' :: l := by
    intro n l e
    obtain ⟨d, hd, he⟩ := toDigits_digit n '-' (by rw [e]; simp)
    exact (digitChar_ne_marks d hd).2 he.symm
  unfold lltoa at h
  split at h <;> split at h
  · have := toDigits_injective _ _ (List.cons_injective h)
    omega
  · exact absurd h.symm (hminus _ _)
  · exact absurd h (hminus _ _)
  · have := toDigits_injective _ _ h
    omega

/-! ## The field writer -/

theorem redisCommand_sent (w : World) (cmd : Cmd) :
    (redisCommand w cmd).1.sent = w.sent ++ [cmd] := by
  unfold redisCommand; split <;> rfl

theorem redisCommand_connects (w : World) (cmd : Cmd) :
    (redisCommand w cmd).1.connects = w.connects := by
  unfold redisCommand; split <;> rfl

theorem redisCommand_faults (w : World) (cmd : Cmd) :
    (redisCommand w cmd).1.faults = w.faults.tail := by
  unfold redisCommand; split <;> rfl

theorem redisCommand_store (w : World) (cmd : Cmd) :
    (redisCommand w cmd).1.store
      = if w.faults.headD false then w.store else (serve w.store cmd).1 := by
  unfold redisCommand; split <;> rfl

theorem redisCommand_reply (w : World) (cmd : Cmd) :
    (redisCommand w cmd).2
      = if w.faults.headD false then ⟨.ERROR, 0⟩ else (serve w.store cmd).2 := by
  unfold redisCommand; split <;> rfl

theorem check_error_sent (u : Indeterminate) (r : redisReply) (w : World) :
    (check_error u r w).1.sent = w.sent := by
  unfold check_error redis_connect; split <;> rfl

theorem check_error_store (u : Indeterminate) (r : redisReply) (w : World) :
    (check_error u r w).1.store = w.store := by
  unfold check_error redis_connect; split <;> rfl

theorem check_error_faults (u : Indeterminate) (r : redisReply) (w : World) :
    (check_error u r w).1.faults = w.faults := by
  unfold check_error redis_connect; split <;> rfl

theorem check_error_connects (u : Indeterminate) (r : redisReply) (w : World) :
    (check_error u r w).1.connects
      = if r.type = ReplyType.ERROR then w.connects + 1 else w.connects := by
  unfold check_error redis_connect; split <;> rfl

theorem check_error_result (u : Indeterminate) (r : redisReply) (w : World) :
    (check_error u r w).2
      = if r.type = ReplyType.ERROR then REDIS_ERR else u.check_error := by
  unfold check_error; split <;> rfl

theorem redis_set_world (u : Indeterminate) (key : Key) (val : List Nat) (vallen : Nat)
    (w : World) :
    (redis_set u key val vallen w).1
      = (check_error u (redisCommand w (.SET key (val.take vallen))).2
          (redisCommand w (.SET key (val.take vallen))).1).1 := by
  unfold redis_set; simp only []; split <;> rfl

theorem redis_rpush_world (u : Indeterminate) (key : Key) (val : List Char) (vallen : Nat)
    (w : World) :
    (redis_rpush u key val vallen w).1
      = (check_error u (redisCommand w (.RPUSH key (val.take vallen))).2
          (redisCommand w (.RPUSH key (val.take vallen))).1).1 := by
  unfold redis_rpush; simp only []; split <;> rfl

theorem redis_incr_world (u : Indeterminate) (key : Key) (w : World) :
    (redis_incr u key w).1
      = (check_error u (redisCommand w (.INCR key)).2 (redisCommand w (.INCR key)).1).1 := by
  unfold redis_incr; simp only []; split <;> rfl

theorem redis_write_field_world (u : Indeterminate) (t : List Char) (r : Int)
    (f : List Char) (val : List Nat) (vallen : Nat) (w : World) :
    (redis_write_field u t r f val vallen w).1
      = (redis_set u (field_key t r f) val vallen w).1 := rfl

/-- C2: `redis_write_field` sends exactly one command, the `SET` of the
key `table:decimal(rid):field` with the first `vallen` bytes of `val`;
those are `vallen` bytes when the buffer has that many, they are what the
key holds afterwards unless the store answered with an error, and every
other key of the store holds what it held before. -/
theorem redis_write_field_one_set (u : Indeterminate) (t : List Char) (r : Int)
    (f : List Char) (val : List Nat) (vallen : Nat) (w : World) :
    (redis_write_field u t r f val vallen w).1.sent
        = w.sent ++ [Cmd.SET (t ++ ":".toList ++ lltoa r ++ ":".toList ++ f) (val.take vallen)] ∧
    (vallen ≤ val.length → (val.take vallen).length = vallen) ∧
    (w.faults.headD false = false →
      (redis_write_field u t r f val vallen w).1.store
          (t ++ ":".toList ++ lltoa r ++ ":".toList ++ f) = some (.bytes (val.take vallen))) ∧
    (∀ k, k ≠ t ++ ":".toList ++ lltoa r ++ ":".toList ++ f →
      (redis_write_field u t r f val vallen w).1.store k = w.store k) := by
  have hk : t ++ ":".toList ++ lltoa r ++ ":".toList ++ f = field_key t r f := by
    simp [field_key]
  rw [hk, redis_write_field_world, redis_set_world, check_error_sent, check_error_store,
    redisCommand_sent, redisCommand_store]
  refine ⟨rfl, ?_, ?_, ?_⟩
  · intro h; simp [h]
  · intro hf
    rw [hf]
    simp [serve, Store.set]
  · intro k hne
    split
    · rfl
    · simp [serve, Store.set, hne]

/-! ## Field keys -/

theorem split_at_colon (a : List Char) :
    ∀ (b x y : List Char), ':' ∉ a → ':' ∉ b → a ++ ':' :: x = b ++ ':' :: y →
      a = b ∧ x = y := by
  induction a with
  | nil =>
    intro b x y _ hb h
    cases b with
    | nil => exact ⟨rfl, by simpa using h⟩
    | cons c cs =>
      simp only [List.nil_append, List.cons_append, List.cons.injEq] at h
      exact absurd (by rw [← h.1]; simp) hb
  | cons c cs ih =>
    intro b x y ha hb h
    cases b with
    | nil =>
      simp only [List.nil_append, List.cons_append, List.cons.injEq] at h
      exact absurd (by rw [h.1]; simp) ha
    | cons d ds =>
      simp only [List.cons_append, List.cons.injEq] at h
      have := ih ds x y (fun hm => ha (List.mem_cons_of_mem _ hm))
        (fun hm => hb (List.mem_cons_of_mem _ hm)) h.2
      exact ⟨by rw [h.1, this.1], this.2⟩

/-- C3, as stated, fails: the tables `a:1` and `a` share the key
`a:1:2:f` (row 2, field `f` of the first; row 1, field `2:f` of the
second). -/
theorem field_key_collision :
    ¬ (∀ (t1 : List Char) (r1 : Int) (f1 : List Char) (t2 : List Char) (r2 : Int)
        (f2 : List Char), (t1, r1, f1) ≠ (t2, r2, f2) →
          field_key t1 r1 f1 ≠ field_key t2 r2 f2) := by
  intro h
  exact h "a:1".toList 2 "f".toList "a".toList 1 "2:f".toList (by decide) (by decide)

/-- C3, amended: for table names without a colon the field key is
injective in (table, row id, field name); the field names may hold
colons. -/
theorem field_key_injective (t1 : List Char) (r1 : Int) (f1 : List Char)
    (t2 : List Char) (r2 : Int) (f2 : List Char)
    (h1 : ':' ∉ t1) (h2 : ':' ∉ t2) (hne : (t1, r1, f1) ≠ (t2, r2, f2)) :
    field_key t1 r1 f1 ≠ field_key t2 r2 f2 := by
  intro h
  unfold field_key at h
  obtain ⟨ht, h⟩ := split_at_colon t1 t2 _ _ h1 h2 h
  obtain ⟨hr, hf⟩ := split_at_colon _ _ _ _ (lltoa_no_colon r1) (lltoa_no_colon r2) h
  exact hne (by rw [ht, lltoa_injective r1 r2 hr, hf])

theorem field_key_injective_witness :
    field_key "t".toList 1 "a:b".toList ≠ field_key "t".toList 1 "a".toList :=
  field_key_injective "t".toList 1 "a:b".toList "t".toList 1 "a".toList
    (by decide) (by decide) (by decide)

/-! ## Row ids and the row index -/

theorem NoFaults_head (w : World) (h : NoFaults w) : w.faults.headD false = false := by
  unfold NoFaults at h
  cases hf : w.faults with
  | nil => rfl
  | cons b bs => exact h b (by rw [hf]; simp)

theorem NoFaults_tail (w w' : World) (h : NoFaults w) (ht : w'.faults = w.faults.tail) :
    NoFaults w' := by
  unfold NoFaults at *
  intro b hb
  rw [ht] at hb
  exact h b (List.mem_of_mem_tail hb)

theorem rid_key_ne_lastrid_key (t : List Char) : rid_key t ≠ lastrid_key t := by
  intro h
  have := congrArg List.length h
  simp [rid_key, lastrid_key] at this

theorem serve_INCR_other (s : Store) (k k' : Key) (h : k' ≠ k) :
    (serve s (.INCR k)).1 k' = s k' := by
  simp only [serve]
  split <;> (try split) <;> simp [Store.set, h]

theorem serve_RPUSH_other (s : Store) (k k' : Key) (v : List Char) (h : k' ≠ k) :
    (serve s (.RPUSH k v)).1 k' = s k' := by
  simp only [serve]
  split <;> simp [Store.set, h]

theorem redis_write_row_faults (u : Indeterminate) (t : List Char) (w : World) :
    (redis_write_row u t w).1.faults = w.faults.tail.tail := by
  simp only [redis_write_row, redis_rpush_world, redis_incr_world, check_error_faults,
    redisCommand_faults]

theorem redis_write_row_NoFaults (u : Indeterminate) (t : List Char) (w : World)
    (h : NoFaults w) : NoFaults (redis_write_row u t w).1 := by
  have h1 : NoFaults (redis_incr u (lastrid_key t) w).1 :=
    NoFaults_tail w _ h (by rw [redis_incr_world, check_error_faults, redisCommand_faults])
  exact NoFaults_tail _ _ h1 (by
    simp only [redis_write_row, redis_rpush_world, redis_incr_world, check_error_faults,
      redisCommand_faults])

theorem redis_write_row_store (u : Indeterminate) (t : List Char) (w : World)
    (h : NoFaults w) :
    (redis_write_row u t w).1.store
      = (serve (serve w.store (.INCR (lastrid_key t))).1
          (.RPUSH (rid_key t) (lltoa (redis_write_row u t w).2))).1 := by
  have h1 : NoFaults (redis_incr u (lastrid_key t) w).1 :=
    NoFaults_tail w _ h (by rw [redis_incr_world, check_error_faults, redisCommand_faults])
  have e1 : (redis_incr u (lastrid_key t) w).1.store
      = (serve w.store (.INCR (lastrid_key t))).1 := by
    rw [redis_incr_world, check_error_store, redisCommand_store, NoFaults_head w h]
    rfl
  simp only [redis_write_row, redis_rpush_world, check_error_store, redisCommand_store,
    NoFaults_head _ h1, e1, List.take_length]
  rfl

theorem redis_write_row_result (u : Indeterminate) (t : List Char) (w : World)
    (h : NoFaults w) (hu : u.check_error ≠ REDIS_ERR)
    (hr : (serve w.store (.INCR (lastrid_key t))).2.type ≠ ReplyType.ERROR) :
    (redis_write_row u t w).2 = (serve w.store (.INCR (lastrid_key t))).2.integer := by
  have e : (redisCommand w (.INCR (lastrid_key t))).2
      = (serve w.store (.INCR (lastrid_key t))).2 := by
    rw [redisCommand_reply, NoFaults_head w h]; rfl
  simp only [redis_write_row, redis_incr, check_error_result, e, if_neg hr, if_neg hu]

theorem redis_write_row_step (u : Indeterminate) (t : List Char) (w : World) (n : Nat)
    (h : NoFaults w) (hu : u.check_error ≠ REDIS_ERR)
    (hc : (n = 0 ∧ w.store (lastrid_key t) = none) ∨
      w.store (lastrid_key t) = some (.counter n))
    (hn : (n : Int) < LLONG_MAX) :
    (redis_write_row u t w).2 = (n : Int) + 1 ∧
    (redis_write_row u t w).1.store (lastrid_key t) = some (.counter ((n : Int) + 1)) := by
  have hs : serve w.store (.INCR (lastrid_key t))
      = (w.store.set (lastrid_key t) (.counter ((n : Int) + 1)),
          ⟨.INTEGER, (n : Int) + 1⟩) := by
    rcases hc with ⟨rfl, hc⟩ | hc
    · simp [serve, hc]
    · simp [serve, hc, hn]
  have hr : (serve w.store (.INCR (lastrid_key t))).2.type ≠ ReplyType.ERROR := by
    rw [hs]; simp
  constructor
  · rw [redis_write_row_result u t w h hu hr, hs]
  · rw [redis_write_row_store u t w h,
      serve_RPUSH_other _ _ _ _ (rid_key_ne_lastrid_key t).symm, hs]
    simp [Store.set]

theorem write_rows_ids (u : Indeterminate) (t : List Char) (hu : u.check_error ≠ REDIS_ERR) :
    ∀ (k : Nat) (w : World) (n : Nat), NoFaults w →
      ((n = 0 ∧ w.store (lastrid_key t) = none) ∨
        w.store (lastrid_key t) = some (.counter n)) →
      ((n + k : Nat) : Int) ≤ LLONG_MAX →
      (write_rows u t k w).2 = (List.range' (n + 1) k).map (fun i : Nat => (i : Int)) := by
  intro k
  induction k with
  | zero => intro w n _ _ _; rfl
  | succ k ih =>
    intro w n h hc hk
    have hn : (n : Int) < LLONG_MAX := by push_cast at hk; omega
    obtain ⟨h1, h2⟩ := redis_write_row_step u t w n h hu hc hn
    have ih' := ih (redis_write_row u t w).1 (n + 1) (redis_write_row_NoFaults u t w h)
      (Or.inr (by rw [h2]; rfl)) (by push_cast at hk ⊢; omega)
    simp only [write_rows, ih', h1, List.range'_succ, List.map_cons]
    rfl

theorem write_rows_length (u : Indeterminate) (t : List Char) :
    ∀ (k : Nat) (w : World), (write_rows u t k w).2.length = k := by
  intro k
  induction k with
  | zero => intro w; rfl
  | succ k ih => intro w; simp [write_rows, ih]

theorem redis_write_row_index (u : Indeterminate) (t : List Char) (w : World)
    (l : List (List Char)) (h : NoFaults w)
    (hc : (l = [] ∧ w.store (rid_key t) = none) ∨ w.store (rid_key t) = some (.list l)) :
    (redis_write_row u t w).1.store (rid_key t)
      = some (.list (l ++ [lltoa (redis_write_row u t w).2])) := by
  rw [redis_write_row_store u t w h]
  have hs := serve_INCR_other w.store (lastrid_key t) (rid_key t) (rid_key_ne_lastrid_key t)
  generalize (serve w.store (.INCR (lastrid_key t))).1 = s1 at hs
  rcases hc with ⟨rfl, hc⟩ | hc
  · rw [hc] at hs
    simp [serve, hs, Store.set]
  · rw [hc] at hs
    simp [serve, hs, Store.set]

theorem write_rows_index (u : Indeterminate) (t : List Char) :
    ∀ (k : Nat) (w : World) (l : List (List Char)), NoFaults w →
      w.store (rid_key t) = some (.list l) →
      (write_rows u t k w).1.store (rid_key t)
        = some (.list (l ++ (write_rows u t k w).2.map lltoa)) := by
  intro k
  induction k with
  | zero => intro w l _ hl; simpa [write_rows] using hl
  | succ k ih =>
    intro w l h hl
    have h1 := redis_write_row_index u t w l h (Or.inr hl)
    have := ih (redis_write_row u t w).1 _ (redis_write_row_NoFaults u t w h) h1
    simp only [write_rows, this, List.map_cons, List.append_assoc, List.singleton_append]

/-- When the value that `check_error` leaves on a good reply is not
`REDIS_ERR`: on a store without the counter key, with no injected failure
and the counter within `long long`, `k` calls of `redis_write_row` in a
row return 1, 2, ..., k. -/
theorem row_ids_count_from_one (u : Indeterminate) (t : List Char) (w : World) (k : Nat)
    (hu : u.check_error ≠ REDIS_ERR) (hf : NoFaults w)
    (habsent : w.store (lastrid_key t) = none) (hk : (k : Int) ≤ LLONG_MAX) :
    (write_rows u t k w).2 = (List.range' 1 k).map (fun i : Nat => (i : Int)) ∧
    (write_rows u t k w).2.Pairwise (fun a b => a < b) := by
  have e := write_rows_ids u t hu k w 0 hf (Or.inl ⟨rfl, habsent⟩) (by simpa using hk)
  refine ⟨e, ?_⟩
  rw [e]
  exact List.Pairwise.map (fun i : Nat => (i : Int))
    (fun a b hab => Int.ofNat_lt.mpr hab) (List.pairwise_lt_range' 1 k)

theorem row_ids_count_from_one_witness :
    (write_rows ⟨0, 0, 0, 0, 0⟩ "t".toList 3 ⟨fun _ => none, [], [], 0⟩).2
        = (List.range' 1 3).map (fun i : Nat => (i : Int)) ∧
    (write_rows ⟨0, 0, 0, 0, 0⟩ "t".toList 3 ⟨fun _ => none, [], [], 0⟩).2.Pairwise
        (fun a b => a < b) :=
  row_ids_count_from_one ⟨0, 0, 0, 0, 0⟩ "t".toList ⟨fun _ => none, [], [], 0⟩ 3
    (by decide) (by intro b hb; simp at hb) rfl (by decide)

/-- C4: what the code returns. `check_error` ends without a `return` on a
good reply, and `redis_incr` compares its result with `REDIS_ERR`: when the
value left there is `REDIS_ERR`, `redis_incr` yields `REDIS_ERR` for every
key and every world, whatever the reply. On the empty store, with every
command answered by a good reply, three calls of `redis_write_row` for the
table `t` then return -1, -1, -1 and not 1, 2, 3, although the counter was
stepped to 3 and no reconnect took place; the row index receives the
text `-1` three times. -/
theorem row_ids_lost_by_missing_return :
    (∀ (a b c : Int) (h : Nat) (key : Key) (w : World),
      (redis_incr ⟨REDIS_ERR, a, b, c, h⟩ key w).2 = REDIS_ERR) ∧
    (write_rows ⟨-1, 0, 0, 0, 0⟩ "t".toList 3 ⟨fun _ => none, [], [], 0⟩).2
      = [-1, -1, -1] ∧
    (write_rows ⟨-1, 0, 0, 0, 0⟩ "t".toList 3 ⟨fun _ => none, [], [], 0⟩).1.store
        (lastrid_key "t".toList) = some (.counter 3) ∧
    (write_rows ⟨-1, 0, 0, 0, 0⟩ "t".toList 3 ⟨fun _ => none, [], [], 0⟩).1.connects = 0 ∧
    list_at (write_rows ⟨-1, 0, 0, 0, 0⟩ "t".toList 3 ⟨fun _ => none, [], [], 0⟩).1.store
        (rid_key "t".toList) = ["-1".toList, "-1".toList, "-1".toList] := by
  refine ⟨?_, by decide, by decide, by decide, by decide⟩
  intro a b c h key w
  simp only [redis_incr, check_error_result]
  split <;> simp

/-- C5: after `N` calls of `redis_write_row` in a row on a store without
the key `table:rid` and with no injected failure, the list at
`table:rid` has exactly `N` elements and they are, in call order, the
decimal texts of the ids the calls returned. -/
theorem row_index_in_call_order (u : Indeterminate) (t : List Char) (w : World) (N : Nat)
    (hf : NoFaults w) (habsent : w.store (rid_key t) = none) :
    list_at (write_rows u t N w).1.store (rid_key t) = (write_rows u t N w).2.map lltoa ∧
    (list_at (write_rows u t N w).1.store (rid_key t)).length = N := by
  have e : list_at (write_rows u t N w).1.store (rid_key t)
      = (write_rows u t N w).2.map lltoa := by
    cases N with
    | zero => simp [write_rows, list_at, habsent]
    | succ k =>
      have h1 := redis_write_row_index u t w [] hf (Or.inl ⟨rfl, habsent⟩)
      have := write_rows_index u t k (redis_write_row u t w).1 _
        (redis_write_row_NoFaults u t w hf) h1
      simp only [write_rows, list_at, this, List.map_cons, List.nil_append,
        List.singleton_append]
  refine ⟨e, ?_⟩
  rw [e, List.length_map, write_rows_length]

theorem row_index_in_call_order_witness :
    list_at (write_rows ⟨0, 0, 0, 0, 0⟩ "t".toList 2 ⟨fun _ => none, [], [], 0⟩).1.store
        (rid_key "t".toList)
      = (write_rows ⟨0, 0, 0, 0, 0⟩ "t".toList 2 ⟨fun _ => none, [], [], 0⟩).2.map lltoa ∧
    (list_at (write_rows ⟨0, 0, 0, 0, 0⟩ "t".toList 2 ⟨fun _ => none, [], [], 0⟩).1.store
        (rid_key "t".toList)).length = 2 :=
  row_index_in_call_order ⟨0, 0, 0, 0, 0⟩ "t".toList ⟨fun _ => none, [], [], 0⟩ 2
    (by intro b hb; simp at hb) rfl

/-! ## Field values -/

theorem copy_loop_faults (record : List Nat) :
    ∀ (room idx : Nat) (value : List Nat),
      ∃ e, copy_loop record room (.byte idx) value = .error e := by
  intro room
  induction room with
  | zero =>
    intro idx value
    simp only [copy_loop]
    split
    · exact ⟨_, rfl⟩
    · exact ⟨_, rfl⟩
  | succ room ih =>
    intro idx value
    simp only [copy_loop]
    split
    · exact ⟨_, rfl⟩
    · exact ih _ _

theorem field_value_string_faults (u : Indeterminate) (record : List Nat) (f : Field)
    (h : is_string_type f.type = true) : ∃ e, field_value u record f = .error e := by
  obtain ⟨e, he⟩ := copy_loop_faults record f.pack_length (f.offset + 1) []
  exact ⟨e, by simp only [field_value, h, if_true, he]⟩

theorem field_value_other (u : Indeterminate) (record : List Nat) (f : Field)
    (h : is_string_type f.type = false) (hb : f.offset + 1 + f.pack_length ≤ record.length) :
    field_value u record f = .ok ((record.drop (f.offset + 1)).take f.pack_length) := by
  simp [field_value, h, hb]

/-- C6: what the code does with a string field. For each of the three
string types, with any name, width, offset and row buffer, building the
value ends in a fault and never yields a value: the loop tests the pointer
and not the byte it points to, so it does not stop at a null byte. On the
row buffer `hello\0\0\0` followed by the integer 7, `write_row` of the
field `a` (`STRING`, width 8, offset 0) copies `ello\0\0\0` and the
byte 7 from offset 1 on and then writes past the 8 bytes of `value`; no
`SET` of `hello` is sent. -/
theorem string_field_copy_overruns :
    (∀ (u : Indeterminate) (record : List Nat) (name : List Char) (width offset : Nat),
      (∃ e, field_value u record ⟨name, width, offset, .MYSQL_TYPE_VARCHAR⟩ = .error e) ∧
      (∃ e, field_value u record ⟨name, width, offset, .MYSQL_TYPE_VAR_STRING⟩ = .error e) ∧
      (∃ e, field_value u record ⟨name, width, offset, .MYSQL_TYPE_STRING⟩ = .error e)) ∧
    field_value ⟨0, 0, 0, 0, 0⟩ [104, 101, 108, 108, 111, 0, 0, 0, 7, 0, 0, 0, 0]
        ⟨"a".toList, 8, 0, .MYSQL_TYPE_STRING⟩ = .error .write_outside_value ∧
    (write_row ⟨0, 0, 0, 0, 0⟩ "./db/t".toList [⟨"a".toList, 8, 0, .MYSQL_TYPE_STRING⟩]
        [104, 101, 108, 108, 111, 0, 0, 0, 7, 0, 0, 0, 0]
        ⟨fun _ => none, [], [], 0⟩).toOption.map (fun r => r.1.sent) = none := by
  refine ⟨?_, rfl, by decide⟩
  intro u record name width offset
  exact ⟨field_value_string_faults u record _ rfl, field_value_string_faults u record _ rfl,
    field_value_string_faults u record _ rfl⟩

/-- C7: what the code does with a non-string field. On a row buffer that
holds the 4-byte integer 7 at offset 0 (bytes 7 0 0 0) followed by the byte
170, `write_row` of the field `b` (`LONG`, width 4, offset 0) sends
`SET t:1:b` with the 4 bytes 0 0 0 170, the bytes at offsets 1 to 4, and
not the field's bytes 7 0 0 0 at offsets 0 to 3. -/
theorem int_field_stored_from_next_byte :
    (write_row ⟨0, 0, 0, 0, 0⟩ "./db/t".toList [⟨"b".toList, 4, 0, .MYSQL_TYPE_LONG⟩]
        [7, 0, 0, 0, 170] ⟨fun _ => none, [], [], 0⟩).toOption.map (fun r => r.1.sent)
      = some [.INCR "t:lastrid".toList, .RPUSH "t:rid".toList "1".toList,
          .SET "t:1:b".toList [0, 0, 0, 170]] ∧
    ([7, 0, 0, 0, 170].drop 0).take 4 = [7, 0, 0, 0] ∧
    field_value ⟨0, 0, 0, 0, 0⟩ [7, 0, 0, 0, 170] ⟨"b".toList, 4, 0, .MYSQL_TYPE_LONG⟩
      = .ok [0, 0, 0, 170] := by
  refine ⟨by decide, rfl, rfl⟩

/-! ## Failures during a row write -/

theorem redis_write_row_sent (u : Indeterminate) (t : List Char) (w : World) :
    (redis_write_row u t w).1.sent
      = w.sent ++ [Cmd.INCR (lastrid_key t),
          Cmd.RPUSH (rid_key t) (lltoa (redis_incr u (lastrid_key t) w).2)] := by
  simp only [redis_write_row, redis_rpush_world, redis_incr_world, check_error_sent,
    redisCommand_sent, List.take_length, List.append_assoc, List.singleton_append]

theorem redis_incr_on_error (u : Indeterminate) (key : Key) (w : World)
    (h : (redisCommand w (.INCR key)).2.type = ReplyType.ERROR) :
    (redis_incr u key w).2 = REDIS_ERR := by
  simp only [redis_incr, check_error_result, h, if_true]

theorem write_fields_sent (u : Indeterminate) (t : List Char) (rid : Int) (record : List Nat) :
    ∀ (fields : List Field) (w : World),
      (∀ f ∈ fields, is_string_type f.type = false ∧
        f.offset + 1 + f.pack_length ≤ record.length) →
      ∃ w', write_fields u t rid record fields w = .ok w' ∧
        w'.sent = w.sent ++ fields.map (fun f =>
          Cmd.SET (field_key t rid f.field_name)
            ((record.drop (f.offset + 1)).take f.pack_length)) := by
  intro fields
  induction fields with
  | nil => intro w _; exact ⟨w, rfl, by simp⟩
  | cons f fs ih =>
    intro w hf
    have hv := field_value_other u record f (hf f (List.mem_cons_self _ _)).1
      (hf f (List.mem_cons_self _ _)).2
    obtain ⟨w', hw', hs⟩ := ih
      (redis_write_field u t rid f.field_name
        ((record.drop (f.offset + 1)).take f.pack_length) f.pack_length w).1
      (fun g hg => hf g (List.mem_cons_of_mem _ hg))
    refine ⟨w', by simp only [write_fields, hv, hw'], ?_⟩
    rw [hs, redis_write_field_world, redis_set_world, check_error_sent, redisCommand_sent]
    simp [List.take_take]

theorem write_row_ok (u : Indeterminate) (table_name : List Char) (fields : List Field)
    (record : List Nat) (w : World)
    (hf : ∀ f ∈ fields, is_string_type f.type = false ∧
      f.offset + 1 + f.pack_length ≤ record.length) :
    ∃ w', write_row u table_name fields record w = .ok (w', 0) ∧
      w'.sent = w.sent ++
        (Cmd.INCR (lastrid_key (extract_table_name table_name)) ::
         Cmd.RPUSH (rid_key (extract_table_name table_name))
            (lltoa (redis_incr u (lastrid_key (extract_table_name table_name)) w).2) ::
         fields.map (fun f =>
          Cmd.SET (field_key (extract_table_name table_name)
              (redis_incr u (lastrid_key (extract_table_name table_name)) w).2 f.field_name)
            ((record.drop (f.offset + 1)).take f.pack_length))) := by
  obtain ⟨w', hw', hs⟩ := write_fields_sent u (extract_table_name table_name)
    (redis_write_row u (extract_table_name table_name) w).2 record fields
    (redis_write_row u (extract_table_name table_name) w).1 hf
  refine ⟨w', by simp only [write_row, hw'], ?_⟩
  rw [hs, redis_write_row_sent]
  simp [redis_write_row]

/-- C8, as stated, fails: with an error reply to the `INCR` (so
`redis_incr` yields `REDIS_ERR`), `write_row` of a row with the one
integer field `b` still sends the `RPUSH` to `t:rid` (of the text `-1`)
and the `SET` of the field key `t:-1:b`. -/
theorem failed_increment_does_not_abort :
    (redis_incr ⟨0, 0, 0, 0, 0⟩ "t:lastrid".toList ⟨fun _ => none, [true], [], 0⟩).2
      = REDIS_ERR ∧
    (write_row ⟨0, 0, 0, 0, 0⟩ "./db/t".toList [⟨"b".toList, 4, 0, .MYSQL_TYPE_LONG⟩]
        [7, 0, 0, 0, 170] ⟨fun _ => none, [true], [], 0⟩).toOption.map (fun r => r.1.sent)
      = some [.INCR "t:lastrid".toList, .RPUSH "t:rid".toList "-1".toList,
          .SET "t:-1:b".toList [0, 0, 0, 170]] := by
  decide

/-- C8, amended: no reply stops a row write. For a row whose fields are
all of non-string type with their bytes inside the row buffer, `write_row`
sends, whatever the store answers, `INCR table:lastrid`, then
`RPUSH table:rid` with the decimal text of the value `redis_incr`
yielded, then one `SET` per field, in field order, on the key built from
that value; when the reply to the `INCR` is an error that value is
`REDIS_ERR`. -/
theorem row_write_sends_every_command (u : Indeterminate) (table_name : List Char)
    (fields : List Field) (record : List Nat) (w : World)
    (hf : ∀ f ∈ fields, is_string_type f.type = false ∧
      f.offset + 1 + f.pack_length ≤ record.length) :
    (write_row u table_name fields record w).toOption.map (fun r => r.1.sent)
      = some (w.sent ++
        (Cmd.INCR (lastrid_key (extract_table_name table_name)) ::
         Cmd.RPUSH (rid_key (extract_table_name table_name))
            (lltoa (redis_incr u (lastrid_key (extract_table_name table_name)) w).2) ::
         fields.map (fun f =>
          Cmd.SET (field_key (extract_table_name table_name)
              (redis_incr u (lastrid_key (extract_table_name table_name)) w).2 f.field_name)
            ((record.drop (f.offset + 1)).take f.pack_length)))) ∧
    ((redisCommand w (.INCR (lastrid_key (extract_table_name table_name)))).2.type
        = ReplyType.ERROR →
      (redis_incr u (lastrid_key (extract_table_name table_name)) w).2 = REDIS_ERR) := by
  obtain ⟨w', hw', hs⟩ := write_row_ok u table_name fields record w hf
  exact ⟨by rw [hw']; simp [Except.toOption, hs], redis_incr_on_error u _ w⟩

theorem row_write_sends_every_command_witness :
    (write_row ⟨0, 0, 0, 0, 0⟩ "db/t".toList
        [⟨"b".toList, 4, 0, .MYSQL_TYPE_LONG⟩, ⟨"c".toList, 1, 4, .MYSQL_TYPE_TINY⟩]
        [7, 0, 0, 0, 170, 9] ⟨fun _ => none, [false, true], [], 0⟩).toOption.map
          (fun r => r.1.sent)
      = some [.INCR "t:lastrid".toList, .RPUSH "t:rid".toList "1".toList,
          .SET "t:1:b".toList [0, 0, 0, 170], .SET "t:1:c".toList [9]] :=
  (row_write_sends_every_command ⟨0, 0, 0, 0, 0⟩ "db/t".toList
    [⟨"b".toList, 4, 0, .MYSQL_TYPE_LONG⟩, ⟨"c".toList, 1, 4, .MYSQL_TYPE_TINY⟩]
    [7, 0, 0, 0, 170, 9] ⟨fun _ => none, [false, true], [], 0⟩ (by decide)).1.trans
    (by decide)

/-- C9, as stated, fails: when the store answers all three commands of a
row write with an error reply (three reconnects follow), `write_row`
returns 0. -/
theorem write_row_zero_after_failures :
    (write_row ⟨0, 0, 0, 0, 0⟩ "./db/t".toList [⟨"b".toList, 4, 0, .MYSQL_TYPE_LONG⟩]
        [7, 0, 0, 0, 170] ⟨fun _ => none, [true, true, true], [], 0⟩).toOption.map
          (fun r => (r.1.connects, r.2))
      = some (3, 0) := by
  decide

/-- C9, amended: `write_row` returns 0 for every row it writes, whatever
the store answered to the commands of the row (shown for rows whose fields
are all of non-string type with their bytes inside the row buffer); and
whenever `write_row` returns at all, it returns 0. -/
theorem write_row_returns_zero (u : Indeterminate) (table_name : List Char)
    (fields : List Field) (record : List Nat) (w : World)
    (hf : ∀ f ∈ fields, is_string_type f.type = false ∧
      f.offset + 1 + f.pack_length ≤ record.length) :
    (write_row u table_name fields record w).toOption.map (fun r => r.2) = some 0 ∧
    (∀ (fs : List Field) (r : World × Int),
      write_row u table_name fs record w = .ok r → r.2 = 0) := by
  obtain ⟨w', hw', _⟩ := write_row_ok u table_name fields record w hf
  refine ⟨by rw [hw']; rfl, ?_⟩
  intro fs r hr
  simp only [write_row] at hr
  split at hr
  · cases hr
  · cases hr; rfl

theorem write_row_returns_zero_witness :
    (write_row ⟨0, 0, 0, 0, 0⟩ "db\\t".toList [⟨"b".toList, 2, 1, .MYSQL_TYPE_SHORT⟩]
        [0, 1, 2, 3] ⟨fun _ => none, [false, false, true], [], 0⟩).toOption.map
          (fun r => r.2) = some 0 :=
  (write_row_returns_zero ⟨0, 0, 0, 0, 0⟩ "db\\t".toList
    [⟨"b".toList, 2, 1, .MYSQL_TYPE_SHORT⟩] [0, 1, 2, 3]
    ⟨fun _ => none, [false, false, true], [], 0⟩ (by decide)).1

/-! ## The reconnect policy -/

/-- C10: when the reply to its command is an error reply, each of
`redis_set`, `redis_rpush` and `redis_incr` returns `REDIS_ERR`, having
called `redis_connect` exactly once and sent its command exactly once. -/
theorem wrappers_on_error_reply (u : Indeterminate) (key : Key) (val : List Nat)
    (sval : List Char) (vallen : Nat) (w : World) :
    ((redisCommand w (.SET key (val.take vallen))).2.type = ReplyType.ERROR →
      (redis_set u key val vallen w).2 = REDIS_ERR ∧
      (redis_set u key val vallen w).1.connects = w.connects + 1 ∧
      (redis_set u key val vallen w).1.sent = w.sent ++ [.SET key (val.take vallen)]) ∧
    ((redisCommand w (.RPUSH key (sval.take vallen))).2.type = ReplyType.ERROR →
      (redis_rpush u key sval vallen w).2 = REDIS_ERR ∧
      (redis_rpush u key sval vallen w).1.connects = w.connects + 1 ∧
      (redis_rpush u key sval vallen w).1.sent = w.sent ++ [.RPUSH key (sval.take vallen)]) ∧
    ((redisCommand w (.INCR key)).2.type = ReplyType.ERROR →
      (redis_incr u key w).2 = REDIS_ERR ∧
      (redis_incr u key w).1.connects = w.connects + 1 ∧
      (redis_incr u key w).1.sent = w.sent ++ [.INCR key]) := by
  refine ⟨fun h => ⟨?_, ?_, ?_⟩, fun h => ⟨?_, ?_, ?_⟩, fun h => ⟨?_, ?_, ?_⟩⟩
  · simp only [redis_set, check_error_result, h, if_true]
  · rw [redis_set_world, check_error_connects, if_pos h, redisCommand_connects]
  · rw [redis_set_world, check_error_sent, redisCommand_sent]
  · simp only [redis_rpush, check_error_result, h, if_true]
  · rw [redis_rpush_world, check_error_connects, if_pos h, redisCommand_connects]
  · rw [redis_rpush_world, check_error_sent, redisCommand_sent]
  · exact redis_incr_on_error u key w h
  · rw [redis_incr_world, check_error_connects, if_pos h, redisCommand_connects]
  · rw [redis_incr_world, check_error_sent, redisCommand_sent]

theorem wrappers_on_error_reply_witness :
    (redis_rpush ⟨0, 0, 0, 0, 0⟩ "t:rid".toList "12".toList 2
        ⟨fun k => if k = "t:rid".toList then some (.bytes [1]) else none, [], [], 0⟩).2
      = REDIS_ERR ∧
    (redis_rpush ⟨0, 0, 0, 0, 0⟩ "t:rid".toList "12".toList 2
        ⟨fun k => if k = "t:rid".toList then some (.bytes [1]) else none, [], [], 0⟩).1.connects
      = 0 + 1 ∧
    (redis_rpush ⟨0, 0, 0, 0, 0⟩ "t:rid".toList "12".toList 2
        ⟨fun k => if k = "t:rid".toList then some (.bytes [1]) else none, [], [], 0⟩).1.sent
      = [] ++ [.RPUSH "t:rid".toList ("12".toList.take 2)] :=
  (wrappers_on_error_reply ⟨0, 0, 0, 0, 0⟩ "t:rid".toList [] "12".toList 2
    ⟨fun k => if k = "t:rid".toList then some (.bytes [1]) else none, [], [], 0⟩).2.1
    (by decide)

/-! ## Results of the field writer and the row index -/

/-- C11: what the code returns. `redis_write_field` ends without a
`return`, so its result is the unspecified value for that function
whatever the reply to its `SET` was; on a good reply (and `check_error`
not yielding `REDIS_ERR`) `redis_set` and `redis_rpush` likewise end
without a `return`. With 1 as the unspecified value, `redis_write_field`
returns 1 both after an error reply and after a good reply, which is
neither `REDIS_ERR` in the first case nor `REDIS_OK` in the second. -/
theorem write_field_result_unspecified :
    (∀ (u : Indeterminate) (t : List Char) (r : Int) (f : List Char) (val : List Nat)
        (vallen : Nat) (w : World),
      (redis_write_field u t r f val vallen w).2 = u.redis_write_field) ∧
    (∀ (u : Indeterminate) (key : Key) (val : List Nat) (vallen : Nat) (w : World),
      (redisCommand w (.SET key (val.take vallen))).2.type ≠ ReplyType.ERROR →
      u.check_error ≠ REDIS_ERR → (redis_set u key val vallen w).2 = u.redis_set) ∧
    (∀ (u : Indeterminate) (key : Key) (val : List Char) (vallen : Nat) (w : World),
      (redisCommand w (.RPUSH key (val.take vallen))).2.type ≠ ReplyType.ERROR →
      u.check_error ≠ REDIS_ERR → (redis_rpush u key val vallen w).2 = u.redis_rpush) ∧
    (redisCommand ⟨fun _ => none, [true], [], 0⟩ (.SET "t:1:a".toList [7])).2.type
      = ReplyType.ERROR ∧
    (redis_write_field ⟨1, 1, 1, 1, 0⟩ "t".toList 1 "a".toList [7] 1
        ⟨fun _ => none, [true], [], 0⟩).2 = 1 ∧
    (redisCommand ⟨fun _ => none, [], [], 0⟩ (.SET "t:1:a".toList [7])).2.type
      = ReplyType.STATUS ∧
    (redis_write_field ⟨1, 1, 1, 1, 0⟩ "t".toList 1 "a".toList [7] 1
        ⟨fun _ => none, [], [], 0⟩).2 = 1 ∧
    (redis_set ⟨1, 1, 1, 1, 0⟩ "t:1:a".toList [7] 1 ⟨fun _ => none, [], [], 0⟩).2 = 1 ∧
    (1 : Int) ≠ REDIS_ERR ∧ (1 : Int) ≠ REDIS_OK := by
  refine ⟨fun _ _ _ _ _ _ _ => rfl, ?_, ?_, by decide, by decide, by decide, by decide,
    by decide, by decide, by decide⟩
  · intro u key val vallen w h hu
    simp only [redis_set, check_error_result, if_neg h, if_neg hu]
  · intro u key val vallen w h hu
    simp only [redis_rpush, check_error_result, if_neg h, if_neg hu]

/-! ## Partial row writes -/

/-- C12: a completed step of `redis_write_row` is neither rolled back nor
masked. Whatever happens to the `RPUSH`, the counter key holds after
`redis_write_row` what the `INCR` left there; and there is an execution
from a store without the two keys of the table in which the `INCR`
succeeds with value `n`, the `RPUSH` that follows gets an error reply,
`n` is returned, the counter holds `n`, and the list at `table:rid` does
not hold the decimal text of `n`. -/
theorem orphan_counter_reachable :
    (∀ (u : Indeterminate) (t : List Char) (w : World),
      (redis_write_row u t w).1.store (lastrid_key t)
        = (redisCommand w (.INCR (lastrid_key t))).1.store (lastrid_key t)) ∧
    ∃ (u : Indeterminate) (t : List Char) (w : World) (n : Int),
      w.store (lastrid_key t) = none ∧ w.store (rid_key t) = none ∧
      (redisCommand w (.INCR (lastrid_key t))).2 = ⟨.INTEGER, n⟩ ∧
      (redisCommand (redis_incr u (lastrid_key t) w).1
        (.RPUSH (rid_key t) (lltoa n))).2.type = ReplyType.ERROR ∧
      (redis_write_row u t w).2 = n ∧
      (redis_write_row u t w).1.store (lastrid_key t) = some (.counter n) ∧
      lltoa n ∉ list_at (redis_write_row u t w).1.store (rid_key t) := by
  constructor
  · intro u t w
    simp only [redis_write_row, redis_rpush_world, check_error_store, redisCommand_store,
      redis_incr_world]
    split
    · rfl
    · exact serve_RPUSH_other _ _ _ _ (rid_key_ne_lastrid_key t).symm
  · exact ⟨⟨0, 0, 0, 0, 0⟩, "t".toList, ⟨fun _ => none, [false, true], [], 0⟩, 1,
      by decide, by decide, by decide, by decide, by decide, by decide, by decide⟩

/-! ## Key buffers -/

/-- C14: what the code allocates. For every table name, row id and field
name, each of the three `keylen` values equals the length of the key
formatted into the buffer, so it is one byte less than the key and the NUL
that `sprintf` writes after it; e.g. for the table `t` the key
`t:lastrid` and its NUL take 10 bytes and `keylen` is 9. -/
theorem key_buffers_one_byte_short (t : List Char) (r : Int) (f : List Char) :
    redis_write_row_keylen_lastrid t = (lastrid_key t).length ∧
    redis_write_row_keylen_rid t = (rid_key t).length ∧
    redis_write_field_keylen t r f = (field_key t r f).length ∧
    redis_write_row_keylen_lastrid t < (lastrid_key t).length + 1 ∧
    redis_write_row_keylen_rid t < (rid_key t).length + 1 ∧
    redis_write_field_keylen t r f < (field_key t r f).length + 1 ∧
    redis_write_row_keylen_lastrid "t".toList = 9 ∧
    (lastrid_key "t".toList).length + 1 = 10 := by
  have h1 : redis_write_row_keylen_lastrid t = (lastrid_key t).length := by
    simp [redis_write_row_keylen_lastrid, lastrid_key]
  have h2 : redis_write_row_keylen_rid t = (rid_key t).length := by
    simp [redis_write_row_keylen_rid, rid_key]
  have h3 : redis_write_field_keylen t r f = (field_key t r f).length := by
    simp [redis_write_field_keylen, field_key]
    omega
  exact ⟨h1, h2, h3, by omega, by omega, by omega, by decide, by decide⟩

/-! ## Write-once field keys -/

theorem field_key_ne_lastrid_key (t : List Char) (r : Int) (f : List Char) :
    field_key t r f ≠ lastrid_key t := by
  intro h
  have h' : ':' :: (lltoa r ++ ':' :: f) = ':' :: "lastrid".toList :=
    List.append_cancel_left h
  have hm : ':' ∈ "lastrid".toList := by
    rw [← List.cons_injective h']
    simp
  exact absurd hm (by decide)

theorem field_key_same_table (t : List Char) (r1 r2 : Int) (f1 f2 : List Char)
    (h : field_key t r1 f1 = field_key t r2 f2) : r1 = r2 ∧ f1 = f2 := by
  have h' := List.cons_injective (List.append_cancel_left h)
  obtain ⟨hr, hf⟩ := split_at_colon _ _ _ _ (lltoa_no_colon r1) (lltoa_no_colon r2) h'
  exact ⟨lltoa_injective r1 r2 hr, hf⟩

theorem redis_write_field_store_other (u : Indeterminate) (t : List Char) (r : Int)
    (f : List Char) (val : List Nat) (vallen : Nat) (w : World) (k : Key)
    (hk : k ≠ field_key t r f) :
    (redis_write_field u t r f val vallen w).1.store k = w.store k := by
  rw [redis_write_field_world, redis_set_world, check_error_store, redisCommand_store]
  split
  · rfl
  · simp [serve, Store.set, hk]

theorem redis_write_field_NoFaults (u : Indeterminate) (t : List Char) (r : Int)
    (f : List Char) (val : List Nat) (vallen : Nat) (w : World) (h : NoFaults w) :
    NoFaults (redis_write_field u t r f val vallen w).1 :=
  NoFaults_tail w _ h (by
    rw [redis_write_field_world, redis_set_world, check_error_faults, redisCommand_faults])

theorem write_fields_frame (u : Indeterminate) (t : List Char) (rid : Int)
    (record : List Nat) :
    ∀ (fields : List Field) (w w' : World),
      write_fields u t rid record fields w = .ok w' →
      (NoFaults w → NoFaults w') ∧
      (∀ k, (∀ f ∈ fields, k ≠ field_key t rid f.field_name) → w'.store k = w.store k) := by
  intro fields
  induction fields with
  | nil =>
    intro w w' h
    simp only [write_fields] at h
    cases h
    exact ⟨id, fun _ _ => rfl⟩
  | cons f fs ih =>
    intro w w' h
    simp only [write_fields] at h
    split at h
    · cases h
    · rename_i value _
      obtain ⟨h1, h2⟩ := ih _ w' h
      refine ⟨fun hn => h1 (redis_write_field_NoFaults u t rid _ _ _ w hn), ?_⟩
      intro k hk
      rw [h2 k (fun g hg => hk g (List.mem_cons_of_mem _ hg)),
        redis_write_field_store_other u t rid _ _ _ w k (hk f (List.mem_cons_self _ _))]

theorem set_keys_append (a b : List Cmd) : set_keys (a ++ b) = set_keys a ++ set_keys b := by
  induction a with
  | nil => rfl
  | cons c cs ih => cases c <;> simp [set_keys, ih]

theorem set_keys_map_SET (fields : List Field) (g : Field → Key) (v : Field → List Nat) :
    set_keys (fields.map (fun f => Cmd.SET (g f) (v f))) = fields.map g := by
  induction fields with
  | nil => rfl
  | cons f fs ih => simp [set_keys, ih]

theorem field_key_ne_rid_key (t : List Char) (r : Int) (f : List Char) :
    field_key t r f ≠ rid_key t := by
  intro h
  have h' : ':' :: (lltoa r ++ ':' :: f) = ':' :: "rid".toList :=
    List.append_cancel_left h
  have hm : ':' ∈ "rid".toList := by
    rw [← List.cons_injective h']
    simp
  exact absurd hm (by decide)

theorem record_fits_iff (fields : List Field) (record : List Nat)
    (h : record_fits fields record = true) :
    ∀ f ∈ fields, f.offset + 1 + f.pack_length ≤ record.length := by
  intro f hf
  have := List.all_eq_true.mp h f hf
  simpa using this

theorem field_key_plain_injective (t t' : List Char) (r r' : Int) (f f' : List Char)
    (ht : ':' ∉ t) (ht' : ':' ∉ t') (h : field_key t r f = field_key t' r' f') :
    t = t' ∧ r = r' ∧ f = f' := by
  obtain ⟨h1, h2⟩ := split_at_colon t t' _ _ ht ht' h
  obtain ⟨h3, h4⟩ := split_at_colon _ _ _ _ (lltoa_no_colon r) (lltoa_no_colon r') h2
  exact ⟨h1, lltoa_injective r r' h3, h4⟩

theorem field_key_ne_lastrid_key_plain (t t' : List Char) (r : Int) (f : List Char)
    (ht : ':' ∉ t) (ht' : ':' ∉ t') : field_key t r f ≠ lastrid_key t' := by
  intro h
  have h' : t ++ ':' :: (lltoa r ++ ':' :: f) = t' ++ ':' :: "lastrid".toList := h
  have hm : ':' ∈ "lastrid".toList := by
    rw [← (split_at_colon t t' _ _ ht ht' h').2]
    simp
  exact absurd hm (by decide)

theorem field_key_ne_rid_key_plain (t t' : List Char) (r : Int) (f : List Char)
    (ht : ':' ∉ t) (ht' : ':' ∉ t') : field_key t r f ≠ rid_key t' := by
  intro h
  have h' : t ++ ':' :: (lltoa r ++ ':' :: f) = t' ++ ':' :: "rid".toList := h
  have hm : ':' ∈ "rid".toList := by
    rw [← (split_at_colon t t' _ _ ht ht' h').2]
    simp
  exact absurd hm (by decide)

theorem rid_key_ne_lastrid_key_plain (t t' : List Char) (ht : ':' ∉ t) (ht' : ':' ∉ t') :
    rid_key t ≠ lastrid_key t' := by
  intro h
  have h' : t ++ ':' :: "rid".toList = t' ++ ':' :: "lastrid".toList := h
  exact absurd (split_at_colon t t' _ _ ht ht' h').2 (by decide)

theorem lastrid_key_injective (t t' : List Char) (h : lastrid_key t = lastrid_key t') :
    t = t' :=
  List.append_cancel_right h

theorem redis_write_row_store_other (u : Indeterminate) (t : List Char) (w : World) (k : Key)
    (h1 : k ≠ lastrid_key t) (h2 : k ≠ rid_key t) :
    (redis_write_row u t w).1.store k = w.store k := by
  simp only [redis_write_row, redis_rpush_world, check_error_store, redisCommand_store,
    redis_incr_world]
  split <;> split <;>
    simp only [serve_RPUSH_other _ _ _ _ h2, serve_INCR_other _ _ _ h1]

theorem redis_write_row_store_counter (u : Indeterminate) (t : List Char) (w : World) :
    (redis_write_row u t w).1.store (lastrid_key t)
      = (redisCommand w (.INCR (lastrid_key t))).1.store (lastrid_key t) := by
  simp only [redis_write_row, redis_rpush_world, check_error_store, redisCommand_store,
    redis_incr_world]
  split
  · rfl
  · exact serve_RPUSH_other _ _ _ _ (rid_key_ne_lastrid_key t).symm

theorem incr_store_mono (w : World) (ck : Key) (n : Int)
    (h : w.store ck = some (.counter n)) :
    ∃ n', n ≤ n' ∧ (redisCommand w (.INCR ck)).1.store ck = some (.counter n') := by
  rw [redisCommand_store]
  split
  · exact ⟨n, le_refl _, h⟩
  · by_cases hn : n < LLONG_MAX
    · exact ⟨n + 1, by omega, by simp [serve, h, hn, Store.set]⟩
    · exact ⟨n, le_refl _, by simp [serve, h, hn]⟩

theorem incr_result (u : Indeterminate) (ck : Key) (w : World)
    (h : (redis_incr u ck w).2 ≠ REDIS_ERR) :
    (redisCommand w (.INCR ck)).1.store ck = some (.counter (redis_incr u ck w).2) ∧
    (∀ n, w.store ck = some (.counter n) → n < (redis_incr u ck w).2) := by
  simp only [redis_incr, check_error_result] at h ⊢
  by_cases hr : (redisCommand w (.INCR ck)).2.type = ReplyType.ERROR
  · simp [hr] at h
  · by_cases hu : u.check_error = REDIS_ERR
    · simp [hr, hu] at h
    · simp only [if_neg hr, if_neg hu]
      by_cases hf : w.faults.headD false = true
      · exact absurd (by rw [redisCommand_reply, if_pos hf]) hr
      · rw [redisCommand_reply, if_neg hf] at hr ⊢
        rw [redisCommand_store, if_neg hf]
        cases hs : w.store ck with
        | none => simp [serve, hs, Store.set]
        | some e =>
          cases e with
          | bytes v => simp [serve, hs] at hr
          | list l => simp [serve, hs] at hr
          | counter m =>
            by_cases hm : m < LLONG_MAX
            · simp [serve, hs, hm, Store.set]
            · simp [serve, hs, hm] at hr

theorem write_fields_keys (u : Indeterminate) (t : List Char) (rid : Int)
    (record : List Nat) :
    ∀ (fields : List Field) (w w' : World),
      write_fields u t rid record fields w = .ok w' →
      ∃ new, w'.sent = w.sent ++ new ∧
        set_keys new = fields.map (fun f => field_key t rid f.field_name) ∧
        ∀ c ∈ new, ∃ f v, c = Cmd.SET (field_key t rid f) v := by
  intro fields
  induction fields with
  | nil =>
    intro w w' h
    simp only [write_fields] at h
    cases h
    exact ⟨[], by simp, rfl, by simp⟩
  | cons f fs ih =>
    intro w w' h
    simp only [write_fields] at h
    split at h
    · cases h
    · rename_i value _
      obtain ⟨new, h1, h2, h3⟩ := ih _ w' h
      refine ⟨Cmd.SET (field_key t rid f.field_name) (value.take f.pack_length) :: new,
        ?_, by simp [set_keys, h2], ?_⟩
      · rw [h1, redis_write_field_world, redis_set_world, check_error_sent, redisCommand_sent]
        simp
      · intro c hc
        rcases List.mem_cons.mp hc with rfl | hc
        · exact ⟨_, _, rfl⟩
        · exact h3 c hc

theorem write_row_inv (u : Indeterminate) (table_name : List Char) (fields : List Field)
    (record : List Nat) (w : World) (r : World × Int)
    (h : write_row u table_name fields record w = .ok r) :
    r.2 = 0 ∧
    (∃ new, r.1.sent = w.sent ++ new ∧
      set_keys new = fields.map (fun f => field_key (extract_table_name table_name)
        (redis_incr u (lastrid_key (extract_table_name table_name)) w).2 f.field_name) ∧
      ∀ c ∈ new, c = Cmd.INCR (lastrid_key (extract_table_name table_name)) ∨
        (∃ v, c = Cmd.RPUSH (rid_key (extract_table_name table_name)) v) ∨
        (∃ r f v, c = Cmd.SET (field_key (extract_table_name table_name) r f) v)) ∧
    (∀ k, (∀ f ∈ fields, k ≠ field_key (extract_table_name table_name)
        (redis_incr u (lastrid_key (extract_table_name table_name)) w).2 f.field_name) →
      r.1.store k = (redis_write_row u (extract_table_name table_name) w).1.store k) := by
  simp only [write_row] at h
  split at h
  · cases h
  · rename_i w1 hw1
    cases h
    obtain ⟨new, h1, h2, h3⟩ := write_fields_keys u _ _ record fields _ w1 hw1
    refine ⟨rfl, ⟨[Cmd.INCR (lastrid_key (extract_table_name table_name)),
        Cmd.RPUSH (rid_key (extract_table_name table_name))
          (lltoa (redis_incr u (lastrid_key (extract_table_name table_name)) w).2)] ++ new,
      ?_, ?_, ?_⟩, (write_fields_frame u _ _ record fields _ w1 hw1).2⟩
    · show w1.sent = _
      rw [h1, redis_write_row_sent, List.append_assoc]
    · rw [set_keys_append, h2]
      rfl
    · intro c hc
      rcases List.mem_append.mp hc with hc | hc
      · simp only [List.mem_cons, List.mem_singleton, List.not_mem_nil, or_false] at hc
        rcases hc with rfl | rfl
        · exact Or.inl rfl
        · exact Or.inr (Or.inl ⟨_, rfl⟩)
      · obtain ⟨f, v, rfl⟩ := h3 c hc
        exact Or.inr (Or.inr ⟨_, f, v, rfl⟩)

theorem write_row_counter_mono (u : Indeterminate) (table_name : List Char)
    (fields : List Field) (record : List Nat) (w : World) (r : World × Int)
    (h : write_row u table_name fields record w = .ok r)
    (hT : ':' ∉ extract_table_name table_name) (t : List Char) (ht : ':' ∉ t) (n : Int)
    (hn : w.store (lastrid_key t) = some (.counter n)) :
    ∃ n', n ≤ n' ∧ r.1.store (lastrid_key t) = some (.counter n') := by
  obtain ⟨_, _, hfr⟩ := write_row_inv u table_name fields record w r h
  rw [hfr _ (fun f _ => (field_key_ne_lastrid_key_plain _ t _ _ hT ht).symm)]
  by_cases htT : t = extract_table_name table_name
  · subst htT
    rw [redis_write_row_store_counter]
    exact incr_store_mono w _ n hn
  · rw [redis_write_row_store_other u _ w _
      (fun e => htT (lastrid_key_injective _ _ e))
      (rid_key_ne_lastrid_key_plain _ t hT ht).symm]
    exact ⟨n, le_refl _, hn⟩

theorem write_row_counter_fresh (u : Indeterminate) (table_name : List Char)
    (fields : List Field) (record : List Nat) (w : World) (r : World × Int)
    (h : write_row u table_name fields record w = .ok r)
    (hrid : (redis_incr u (lastrid_key (extract_table_name table_name)) w).2 ≠ REDIS_ERR) :
    r.1.store (lastrid_key (extract_table_name table_name))
      = some (.counter (redis_incr u (lastrid_key (extract_table_name table_name)) w).2) := by
  obtain ⟨_, _, hfr⟩ := write_row_inv u table_name fields record w r h
  rw [hfr _ (fun f _ => (field_key_ne_lastrid_key _ _ _).symm), redis_write_row_store_counter]
  exact (incr_result u _ w hrid).1

theorem run_calls_keys (u : Indeterminate) :
    ∀ (calls : List (ha_redis × Op)) (w w' : World),
      run_calls u calls w = .ok w' →
      ∃ new, w'.sent = w.sent ++ new ∧
        (∀ c ∈ new, ∃ t, c = Cmd.INCR (lastrid_key t) ∨
          (∃ v, c = Cmd.RPUSH (rid_key t) v) ∨
          (∃ r f v, c = Cmd.SET (field_key t r f) v)) ∧
        ((∀ c ∈ calls, ':' ∉ extract_table_name c.1.table_name ∧
            (c.1.fields.map Field.field_name).Nodup) →
          (set_keys new).Pairwise (fun a b => a = b → failed_row_key a) ∧
          ∀ k ∈ set_keys new, ∃ (t : List Char) (r : Int) (f : List Char),
            ':' ∉ t ∧ k = field_key t r f ∧
            (r = REDIS_ERR ∨
              ∀ n, w.store (lastrid_key t) = some (.counter n) → n < r)) := by
  intro calls
  induction calls with
  | nil =>
    intro w w' h
    simp only [run_calls] at h
    cases h
    exact ⟨[], by simp, by simp, fun _ => ⟨by simp [set_keys], by simp [set_keys]⟩⟩
  | cons c calls ih =>
    obtain ⟨h, op⟩ := c
    intro w w' hrun
    simp only [run_calls] at hrun
    split at hrun
    · cases hrun
    · rename_i r hop
      obtain ⟨new2, hs2, hsh2, himp2⟩ := ih r.1 w' hrun
      have skip : r.1 = w →
          ∃ new, w'.sent = w.sent ++ new ∧
            (∀ c ∈ new, ∃ t, c = Cmd.INCR (lastrid_key t) ∨
              (∃ v, c = Cmd.RPUSH (rid_key t) v) ∨
              (∃ r f v, c = Cmd.SET (field_key t r f) v)) ∧
            ((∀ c ∈ (h, op) :: calls, ':' ∉ extract_table_name c.1.table_name ∧
                (c.1.fields.map Field.field_name).Nodup) →
              (set_keys new).Pairwise (fun a b => a = b → failed_row_key a) ∧
              ∀ k ∈ set_keys new, ∃ (t : List Char) (r : Int) (f : List Char),
                ':' ∉ t ∧ k = field_key t r f ∧
                (r = REDIS_ERR ∨
                  ∀ n, w.store (lastrid_key t) = some (.counter n) → n < r)) := by
        intro e
        rw [e] at hs2 himp2
        exact ⟨new2, hs2, hsh2,
          fun hp => himp2 (fun c hc => hp c (List.mem_cons_of_mem _ hc))⟩
      cases op with
      | update_row o d =>
        simp only [run_op, update_row, Except.ok.injEq] at hop
        exact skip (by rw [← hop])
      | delete_row b =>
        simp only [run_op, delete_row, Except.ok.injEq] at hop
        exact skip (by rw [← hop])
      | delete_all_rows =>
        simp only [run_op, delete_all_rows, Except.ok.injEq] at hop
        exact skip (by rw [← hop])
      | write_row record =>
        simp only [run_op] at hop
        obtain ⟨_, ⟨new1, hs1, hk1, hsh1⟩, _⟩ :=
          write_row_inv u h.table_name h.fields record w r hop
        refine ⟨new1 ++ new2, by rw [hs2, hs1, List.append_assoc], ?_, ?_⟩
        · intro c hc
          rcases List.mem_append.mp hc with hc | hc
          · exact ⟨_, hsh1 c hc⟩
          · exact hsh2 c hc
        · intro hp
          obtain ⟨hT, hnames⟩ := hp (h, .write_row record) (List.mem_cons_self _ _)
          obtain ⟨hpw2, hinv2⟩ := himp2 (fun c hc => hp c (List.mem_cons_of_mem _ hc))
          rw [set_keys_append, hk1]
          constructor
          · refine List.pairwise_append.mpr ⟨?_, hpw2, ?_⟩
            · have e : h.fields.map (fun f => field_key (extract_table_name h.table_name)
                  (redis_incr u (lastrid_key (extract_table_name h.table_name)) w).2
                  f.field_name)
                  = (h.fields.map Field.field_name).map
                      (field_key (extract_table_name h.table_name)
                        (redis_incr u (lastrid_key (extract_table_name h.table_name)) w).2) := by
                rw [List.map_map]; rfl
              rw [e]
              have hnd : ((h.fields.map Field.field_name).map
                  (field_key (extract_table_name h.table_name)
                    (redis_incr u (lastrid_key (extract_table_name h.table_name)) w).2)).Nodup :=
                hnames.map (fun a b hab => (field_key_same_table _ _ _ _ _ hab).2)
              exact List.Pairwise.imp (fun hne heq => absurd heq hne) hnd
            · intro a ha b hb hab
              obtain ⟨f, _, rfl⟩ := List.mem_map.mp ha
              by_cases hrid :
                  (redis_incr u (lastrid_key (extract_table_name h.table_name)) w).2 = REDIS_ERR
              · exact ⟨_, f.field_name, hT, by rw [hrid]⟩
              · obtain ⟨t, r', f', ht, hbk, hor⟩ := hinv2 b hb
                obtain ⟨e1, e2, _⟩ :=
                  field_key_plain_injective _ _ _ _ _ _ hT ht (hab.trans hbk)
                rcases hor with hor | hor
                · exact absurd (e2.trans hor) hrid
                · have hst := write_row_counter_fresh u h.table_name h.fields record w r hop hrid
                  have := hor _ (by rw [← e1]; exact hst)
                  omega
          · intro k hk
            rcases List.mem_append.mp hk with hk | hk
            · obtain ⟨f, _, rfl⟩ := List.mem_map.mp hk
              refine ⟨_, _, f.field_name, hT, rfl, ?_⟩
              by_cases hrid :
                  (redis_incr u (lastrid_key (extract_table_name h.table_name)) w).2 = REDIS_ERR
              · exact Or.inl hrid
              · exact Or.inr (incr_result u _ w hrid).2
            · obtain ⟨t, r', f', ht, hbk, hor⟩ := hinv2 k hk
              refine ⟨t, r', f', ht, hbk, hor.imp id ?_⟩
              intro hb n hn
              obtain ⟨n', hle, hst⟩ :=
                write_row_counter_mono u h.table_name h.fields record w r hop hT t ht n hn
              have := hb n' hst
              omega

theorem run_calls_completes (u : Indeterminate) :
    ∀ (calls : List (ha_redis × Op)) (w : World),
      (∀ c ∈ calls, (∀ f ∈ c.1.fields, is_string_type f.type = false) ∧
        op_fits c.1.fields c.2 = true) →
      ∃ w', run_calls u calls w = .ok w' := by
  intro calls
  induction calls with
  | nil => intro w _; exact ⟨w, rfl⟩
  | cons c calls ih =>
    obtain ⟨h, op⟩ := c
    intro w hc
    have hrest : ∀ c ∈ calls, (∀ f ∈ c.1.fields, is_string_type f.type = false) ∧
        op_fits c.1.fields c.2 = true := fun c hm => hc c (List.mem_cons_of_mem _ hm)
    obtain ⟨hty, hfit⟩ := hc (h, op) (List.mem_cons_self _ _)
    cases op with
    | update_row o d =>
      obtain ⟨w', hw'⟩ := ih w hrest
      exact ⟨w', by simp only [run_calls, run_op, update_row, hw']⟩
    | delete_row b =>
      obtain ⟨w', hw'⟩ := ih w hrest
      exact ⟨w', by simp only [run_calls, run_op, delete_row, hw']⟩
    | delete_all_rows =>
      obtain ⟨w', hw'⟩ := ih w hrest
      exact ⟨w', by simp only [run_calls, run_op, delete_all_rows, hw']⟩
    | write_row record =>
      have hfits := record_fits_iff h.fields record hfit
      obtain ⟨w1, hw1, _⟩ := write_row_ok u h.table_name h.fields record w
        (fun f hf => ⟨hty f hf, hfits f hf⟩)
      obtain ⟨w', hw'⟩ := ih w1 hrest
      exact ⟨w', by simp only [run_calls, run_op, hw1, hw']⟩

theorem count_one_of_pairwise (P : Key → Prop) :
    ∀ (l : List Key), l.Pairwise (fun a b => a = b → P a) →
      ∀ k ∈ l, ¬ P k → l.count k = 1 := by
  intro l
  induction l with
  | nil => intro _ k hk; simp at hk
  | cons x xs ih =>
    intro hp k hk hn
    obtain ⟨hx, hxs⟩ := List.pairwise_cons.mp hp
    by_cases hkx : x = k
    · subst hkx
      have hnot : x ∉ xs := fun hm => hn (hx x hm rfl)
      simp [List.count_cons, List.count_eq_zero_of_not_mem hnot]
    · have hm : k ∈ xs := by
        rcases List.mem_cons.mp hk with e | e
        · exact absurd e.symm hkx
        · exact e
      simp [List.count_cons, hkx, ih hxs k hm hn]

theorem not_failed_row_key (t : List Char) (r : Int) (f : List Char) (ht : ':' ∉ t)
    (hr : r ≠ REDIS_ERR) : ¬ failed_row_key (field_key t r f) := by
  rintro ⟨t', f', ht', he⟩
  exact hr (field_key_plain_injective t t' r REDIS_ERR f f' ht ht' he).2.1

/-- C13, as stated, fails. Two row writes on the table `t` whose `INCR`
gets an error reply are both written under the id -1: the second `SET`
targets the key `t:-1:b` that the first `SET` wrote, and the value 1 0
stored there by the first row is replaced by the value 2 0 of the second.
With every allocation succeeding, row 2 of the table `a:1` and row 1 of
the table `a` (field `2:f`) are both written to the key `a:1:2:f`, and a
table with two fields of one name writes the key `t:1:b` twice. -/
theorem failed_rows_share_keys :
    (run_calls ⟨0, 0, 0, 0, 0⟩
        [(⟨"./db/t".toList, [⟨"b".toList, 2, 0, .MYSQL_TYPE_SHORT⟩]⟩, .write_row [0, 1, 0])]
        ⟨fun _ => none, [true, false, false, true, false, false], [], 0⟩).toOption.map
          (fun w => (set_keys w.sent, w.store "t:-1:b".toList))
      = some (["t:-1:b".toList], some (.bytes [1, 0])) ∧
    (run_calls ⟨0, 0, 0, 0, 0⟩
        [(⟨"./db/t".toList, [⟨"b".toList, 2, 0, .MYSQL_TYPE_SHORT⟩]⟩, .write_row [0, 1, 0]),
         (⟨"./db/t".toList, [⟨"b".toList, 2, 0, .MYSQL_TYPE_SHORT⟩]⟩, .write_row [0, 2, 0])]
        ⟨fun _ => none, [true, false, false, true, false, false], [], 0⟩).toOption.map
          (fun w => (set_keys w.sent, w.store "t:-1:b".toList))
      = some (["t:-1:b".toList, "t:-1:b".toList], some (.bytes [2, 0])) ∧
    (run_calls ⟨0, 0, 0, 0, 0⟩
        [(⟨"./db/a:1".toList, [⟨"f".toList, 1, 0, .MYSQL_TYPE_TINY⟩]⟩, .write_row [0, 1]),
         (⟨"./db/a:1".toList, [⟨"f".toList, 1, 0, .MYSQL_TYPE_TINY⟩]⟩, .write_row [0, 2]),
         (⟨"./db/a".toList, [⟨"2:f".toList, 1, 0, .MYSQL_TYPE_TINY⟩]⟩, .write_row [0, 3])]
        ⟨fun _ => none, [], [], 0⟩).toOption.map (fun w => set_keys w.sent)
      = some ["a:1:1:f".toList, "a:1:2:f".toList, "a:1:2:f".toList] ∧
    (run_calls ⟨0, 0, 0, 0, 0⟩
        [(⟨"./db/t".toList, [⟨"b".toList, 1, 0, .MYSQL_TYPE_TINY⟩,
            ⟨"b".toList, 1, 1, .MYSQL_TYPE_TINY⟩]⟩, .write_row [0, 1, 2])]
        ⟨fun _ => none, [], [], 0⟩).toOption.map (fun w => set_keys w.sent)
      = some ["t:1:b".toList, "t:1:b".toList] := by
  decide

/-- C13, amended. `update_row`, `delete_row` and `delete_all_rows` send
no command and return `HA_ERR_WRONG_COMMAND`; every command of a completed
sequence of calls is an `INCR` of a key `table:lastrid`, an `RPUSH` on a
key `table:rid` or a `SET` of a field key, and for table names without
`:` a field key is neither of the other two kinds of key. In every
completed sequence of calls on tables whose names hold no `:` and whose
field names are distinct, whatever the store answers, two `SET`s with the
same key only ever target a key of row id `REDIS_ERR`, written by rows
whose allocation failed; every `SET` targets a field key of such a table,
and the key of a row that got another id is targeted by exactly one `SET`
of the sequence. A sequence on non-string fields whose copied bytes lie
inside the row buffers is completed. -/
theorem field_keys_written_once (u : Indeterminate) (calls : List (ha_redis × Op))
    (w : World) :
    (∀ w', run_calls u calls w = .ok w' →
      ∃ new, w'.sent = w.sent ++ new ∧
        (∀ c ∈ new, ∃ t, c = Cmd.INCR (lastrid_key t) ∨
          (∃ v, c = Cmd.RPUSH (rid_key t) v) ∨
          (∃ r f v, c = Cmd.SET (field_key t r f) v)) ∧
        ((∀ c ∈ calls, ':' ∉ extract_table_name c.1.table_name ∧
            (c.1.fields.map Field.field_name).Nodup) →
          (set_keys new).Pairwise (fun a b => a = b → failed_row_key a) ∧
          ∀ k ∈ set_keys new, ∃ (t : List Char) (r : Int) (f : List Char),
            ':' ∉ t ∧ k = field_key t r f ∧
            (r ≠ REDIS_ERR → (set_keys new).count k = 1))) ∧
    ((∀ c ∈ calls, (∀ f ∈ c.1.fields, is_string_type f.type = false) ∧
        op_fits c.1.fields c.2 = true) →
      ∃ w', run_calls u calls w = .ok w') ∧
    (∀ (t t' : List Char) (r : Int) (f : List Char), ':' ∉ t → ':' ∉ t' →
      field_key t r f ≠ lastrid_key t' ∧ field_key t r f ≠ rid_key t') ∧
    (∀ (t : List Char) (r : Int) (f : List Char), ':' ∉ t → r ≠ REDIS_ERR →
      ¬ failed_row_key (field_key t r f)) ∧
    (∀ (old_data new_data : List Nat) (v : World),
      update_row old_data new_data v = (v, HA_ERR_WRONG_COMMAND)) ∧
    (∀ (buf : List Nat) (v : World), delete_row buf v = (v, HA_ERR_WRONG_COMMAND)) ∧
    (∀ v : World, delete_all_rows v = (v, HA_ERR_WRONG_COMMAND)) := by
  refine ⟨?_, run_calls_completes u calls w, ?_, ?_, fun _ _ _ => rfl, fun _ _ => rfl,
    fun _ => rfl⟩
  · intro w' hw'
    obtain ⟨new, h1, h2, h3⟩ := run_calls_keys u calls w w' hw'
    refine ⟨new, h1, h2, fun hp => ⟨(h3 hp).1, ?_⟩⟩
    intro k hk
    obtain ⟨t, r, f, ht, hkey, _⟩ := (h3 hp).2 k hk
    exact ⟨t, r, f, ht, hkey, fun hr =>
      count_one_of_pairwise failed_row_key _ (h3 hp).1 k hk
        (by rw [hkey]; exact not_failed_row_key t r f ht hr)⟩
  · intro t t' r f ht ht'
    exact ⟨field_key_ne_lastrid_key_plain t t' r f ht ht',
      field_key_ne_rid_key_plain t t' r f ht ht'⟩
  · exact not_failed_row_key

theorem field_keys_written_once_witness :
    ∃ w' new,
      run_calls ⟨0, 0, 0, 0, 0⟩
        [(⟨"./db/t".toList, [⟨"b".toList, 2, 0, .MYSQL_TYPE_SHORT⟩,
            ⟨"c".toList, 1, 2, .MYSQL_TYPE_TINY⟩]⟩, .write_row [0, 1, 0, 5]),
         (⟨"./db/t".toList, [⟨"b".toList, 2, 0, .MYSQL_TYPE_SHORT⟩,
            ⟨"c".toList, 1, 2, .MYSQL_TYPE_TINY⟩]⟩, .update_row [] []),
         (⟨"./db/s".toList, [⟨"b".toList, 1, 0, .MYSQL_TYPE_TINY⟩]⟩, .write_row [0, 2]),
         (⟨"./db/t".toList, [⟨"b".toList, 2, 0, .MYSQL_TYPE_SHORT⟩,
            ⟨"c".toList, 1, 2, .MYSQL_TYPE_TINY⟩]⟩, .write_row [0, 3, 0, 6]),
         (⟨"./db/t".toList, [⟨"b".toList, 2, 0, .MYSQL_TYPE_SHORT⟩,
            ⟨"c".toList, 1, 2, .MYSQL_TYPE_TINY⟩]⟩, .delete_row [])]
        ⟨fun _ => none, [false, false, true, false, true, false, false], [], 0⟩ = .ok w' ∧
      w'.sent = [] ++ new ∧
      (set_keys new).Pairwise (fun a b => a = b → failed_row_key a) := by
  have h := field_keys_written_once ⟨0, 0, 0, 0, 0⟩
    [(⟨"./db/t".toList, [⟨"b".toList, 2, 0, .MYSQL_TYPE_SHORT⟩,
        ⟨"c".toList, 1, 2, .MYSQL_TYPE_TINY⟩]⟩, .write_row [0, 1, 0, 5]),
     (⟨"./db/t".toList, [⟨"b".toList, 2, 0, .MYSQL_TYPE_SHORT⟩,
        ⟨"c".toList, 1, 2, .MYSQL_TYPE_TINY⟩]⟩, .update_row [] []),
     (⟨"./db/s".toList, [⟨"b".toList, 1, 0, .MYSQL_TYPE_TINY⟩]⟩, .write_row [0, 2]),
     (⟨"./db/t".toList, [⟨"b".toList, 2, 0, .MYSQL_TYPE_SHORT⟩,
        ⟨"c".toList, 1, 2, .MYSQL_TYPE_TINY⟩]⟩, .write_row [0, 3, 0, 6]),
     (⟨"./db/t".toList, [⟨"b".toList, 2, 0, .MYSQL_TYPE_SHORT⟩,
        ⟨"c".toList, 1, 2, .MYSQL_TYPE_TINY⟩]⟩, .delete_row [])]
    ⟨fun _ => none, [false, false, true, false, true, false, false], [], 0⟩
  obtain ⟨w', hw'⟩ := h.2.1 (by decide)
  obtain ⟨new, hs, _, hp⟩ := h.1 w' hw'
  exact ⟨w', new, hw', hs, (hp (by decide)).1⟩

end RedSQL
